import Mathlib

/-!
# Verification development for the spObjectStore container

This file gives a shallow embedding of the templated C++ container class
`spObjectStore<T>` (file `spObjectStore.h`, v2.1.1) and proves properties of
its operations.

Modelling conventions:
* The two parallel vectors `_ids` / `_objects` become two Lean lists; the
  cached probe position `_index` (an `int32_t`) becomes an `Int` field.
* Machine integers are modelled as `Nat` / `Int`; `_autoId` is a `uint32_t`,
  so its post-increment wraps modulo `2 ^ 32`.
* `std::vector::reserve` / capacity management (`setCapacity`, and the
  capacity part of `setAdded`) changes no observable field of the container,
  so the embedding keeps only the `_added` flag assignment of `setAdded`.
* Member functions that mutate the object become functions
  `Store T → ... → result × Store T` (or `→ Store T` when they return
  `void`); a returned `T*` pointing into `_objects` is modelled by the index
  of the slot it points to, and a returned `nullptr` by `none`.
* Variadic constructor-argument packs `Vs... args` used to build a `T` are
  modelled by the constructed value itself.  The heterogeneous argument
  packs of `makeIdFromArgs` are modelled by lists of the `SpArg` sum type
  below (the floating-point overloads of `stringify` are not needed by any
  property proved here and are omitted).
* `strcmp` on the UTF-8 `c_str()` pointers is modelled as lexicographic
  comparison of the character sequences; for the ASCII identifiers used in
  all concrete computations this agrees byte-for-byte with `strcmp`.
-/

/-- `enum sposSort { None, ASC, DESC }` - the type of sorting used. -/
inductive sposSort where
  | None
  | ASC
  | DESC
deriving DecidableEq, Repr

/-- Three-way character comparison by code point, the behaviour of comparing
single bytes inside `strcmp`. -/
def chrCmp (a b : Char) : Int :=
  if a.toNat < b.toNat then -1 else if b.toNat < a.toNat then 1 else 0

/-- Three-way lexicographic comparison of character lists; the model of C
`strcmp` (the terminating NUL makes a proper prefix compare less). -/
def strcmpL : List Char → List Char → Int
  | [], [] => 0
  | [], _ :: _ => -1
  | _ :: _, [] => 1
  | a :: as, b :: bs =>
    if a.toNat < b.toNat then -1 else if b.toNat < a.toNat then 1 else strcmpL as bs

/-- `strcmp(a.c_str(), b.c_str())`, as used by `compareIds`. -/
def strcmp (a b : String) : Int := strcmpL a.data b.data

/-- The state of one `spObjectStore<T>` object: all its member fields.
Field names drop the leading underscore of the source. -/
structure Store (T : Type) where
  ids : List String
  objs : List T
  index : Int
  capaInc : Nat
  compareCB : Option (T → T → Int)
  added : Bool
  sorting : sposSort
  idSep : String
  autoId : Nat
  idNumDigits : Nat
  idNumDecimals : Nat
  idNumSize : Nat
  createIdCB : Option (T → String)

/-- The member initialisers of `spObjectStore`, shared by all constructors. -/
def mkStore (T : Type) (sorting : sposSort) : Store T :=
  { ids := [], objs := [], index := -1, capaInc := 10, compareCB := none,
    added := false, sorting := sorting, idSep := "#/#", autoId := 10000,
    idNumDigits := 8, idNumDecimals := 6, idNumSize := 16, createIdCB := none }

/-- `spObjectStore(spos_compare_callback callback)`: sorting `None`, the
comparison callback installed. -/
def mkStoreCmp (T : Type) (cb : T → T → Int) : Store T :=
  { mkStore T sposSort.None with compareCB := some cb }

/-- `isSorted()`: true when a compare callback is set or sorting is not `None`. -/
def isSorted (s : Store T) : Bool :=
  s.compareCB.isSome || s.sorting ≠ sposSort.None

/-- `compareIds(id1, id2)`: `strcmp` of the two ids, negated under `DESC`.
The member reads `_sorting`; here the sorting is passed explicitly. -/
def compareIds (srt : sposSort) (id1 id2 : String) : Int :=
  let cmpRes := strcmp id1 id2
  if srt = sposSort.DESC then -cmpRes else cmpRes

/-- The comparison performed at probe position `sIdx` inside `indexOf`:
ids are compared unless both a compare callback and a probe object are
present, in which case objects are compared with an id tie-break (skipped
for an empty id). -/
def indexOfCmp [Inhabited T] (s : Store T) (id : String) (obj : Option T) (k : Nat) : Int :=
  match s.compareCB, obj with
  | some cb, some o =>
    let cmpRes := cb (s.objs.getD k default) o
    if cmpRes = 0 ∧ 0 < id.length then compareIds s.sorting (s.ids.getD k "") id else cmpRes
  | _, _ => compareIds s.sorting (s.ids.getD k "") id

/-- The lower-bound `while (count > 0)` loop of `indexOf`, with the abstract
per-position comparison `c`.  Returns the pair (return value, final `_index`):
`(sIdx, sIdx)` on an exact match and `(-1, first)` on exhaustion.  The loop
strictly decreases `count`, so a fuel argument initialised to `count` makes
the recursion structural without changing any reachable behaviour. -/
def lbAux (c : Nat → Int) : Nat → Nat → Nat → Int × Nat
  | 0, first, _ => (-1, first)
  | fuel + 1, first, count =>
    if count = 0 then (-1, first)
    else
      let step := count / 2
      let sIdx := first + step
      let cmpRes := c sIdx
      if cmpRes < 0 then lbAux c fuel (sIdx + 1) (count - (step + 1))
      else if cmpRes = 0 then ((sIdx : Int), sIdx)
      else lbAux c fuel first step

/-- The unsorted branch of `indexOf`: `for (_index = 0; _index < count; _index++)`,
returning the position of the first exact id match. -/
def linFind : List String → String → Nat → Option Nat
  | [], _, _ => none
  | x :: xs, id, k => if x = id then some k else linFind xs id (k + 1)

/-- `indexOf(id, obj)`: fast path on the cached `_index`, then lower-bound
binary search when `isSorted()`, else a linear scan.  Returns the `int32_t`
return value together with the store whose `_index` was updated. -/
def indexOf [Inhabited T] (s : Store T) (id : String) (obj : Option T) : Int × Store T :=
  let count := s.ids.length
  if -1 < s.index ∧ s.index < (count : Int) ∧ s.ids.getD s.index.toNat "" = id then
    (s.index, s)
  else if isSorted s then
    let r := lbAux (indexOfCmp s id obj) count 0 count
    (r.1, { s with index := (r.2 : Int) })
  else
    match linFind s.ids id 0 with
    | some k => ((k : Int), { s with index := (k : Int) })
    | none => (-1, { s with index := (count : Int) })

/-- `addObjWithId(id, args...)`: probe without an object; insert into both
vectors at `_index` when absent, else overwrite the object slot.  `setAdded`
reduces to the `_added` assignment (capacity growth is unobservable).  The
returned pointer `&_objects[_index]` is modelled by the slot index. -/
def addObjWithId [Inhabited T] (s : Store T) (id : String) (v : T) : Nat × Store T :=
  let r := indexOf s id none
  let s1 := r.2
  let k := s1.index.toNat
  if r.1 = -1 then
    (k, { s1 with added := true, ids := s1.ids.insertIdx k id, objs := s1.objs.insertIdx k v })
  else
    (k, { s1 with added := false, objs := s1.objs.set k v })

/-- `setObjWithId(id, newObj)`: like `addObjWithId` but the probe passes the
object, and the stored value is a copy of `newObj`. -/
def setObjWithId [Inhabited T] (s : Store T) (id : String) (v : T) : Nat × Store T :=
  let r := indexOf s id (some v)
  let s1 := r.2
  let k := s1.index.toNat
  if r.1 = -1 then
    (k, { s1 with added := true, ids := s1.ids.insertIdx k id, objs := s1.objs.insertIdx k v })
  else
    (k, { s1 with added := false, objs := s1.objs.set k v })

/-- `%0*llu` with width 8, and `%0*lld` with width `_idNumDigits`: left
zero-padding of a decimal rendering up to the given width. -/
def padZeros (w : Nat) (str : String) : String :=
  if str.length < w then String.mk (List.replicate (w - str.length) '0') ++ str else str

/-- `stringify` for `uint64_t` (and, via widening casts, `uint32_t`,
`uint16_t`, `uint8_t`): `snprintf(buf, 100, "%0*llu", 8, value)` - the
width is the literal `8`, not `_idNumDigits`.  A `uint64_t` renders in at
most 20 digits and the width is fixed at 8, so the 100-byte buffer never
truncates on this path. -/
def stringifyU (v : Nat) : String := padZeros 8 (Nat.repr v)

/-- `stringify` for `int64_t` (and, via widening casts, the smaller signed
types): `snprintf(buf, 100, "%0*lld", _idNumDigits, value)`; for a negative
value the sign occupies the first of the `digits` padded positions.  The
destination is `char buf[100]`, so `snprintf` truncates the rendering to the
buffer's 99 characters (the width `_idNumDigits` is a `uint8_t` promoted to
`int`, so widths up to 255 are reachable and the cap is observable). -/
def stringifyS (digits : Nat) (v : Int) : String :=
  String.mk
    ((if v < 0 then "-" ++ padZeros (digits - 1) (Nat.repr (-v).toNat)
      else padZeros digits (Nat.repr v.toNat)).data.take 99)

/-- One positional argument of `makeIdFromArgs`, tagged with the overload of
`stringify` that would receive it. -/
inductive SpArg where
  | uintArg (v : Nat)
  | intArg (v : Int)
  | strArg (str : String)
  | charArg (c : Char)
deriving DecidableEq, Repr

/-- The `stringify` overload set, dispatched on the argument tag; reads
`_idNumDigits` from the store for signed integers. -/
def stringify (s : Store T) : SpArg → String
  | .uintArg v => stringifyU v
  | .intArg v => stringifyS s.idNumDigits v
  | .strArg str => str
  | .charArg c => String.mk [c]

/-- The recursive `makeIdFrom(arg, args...)` overloads: stringified arguments
joined with `_idSep` (empty for no arguments). -/
def makeIdFrom (s : Store T) : List SpArg → String
  | [] => ""
  | [a] => stringify s a
  | a :: b :: rest => stringify s a ++ s.idSep ++ makeIdFrom s (b :: rest)

/-- `int8_t numArgs = sizeof...(args)`: the argument count truncated to a
signed 8-bit value. -/
def toInt8 (n : Nat) : Int :=
  if n % 256 < 128 then (n % 256 : Nat) else (n % 256 : Nat) - 256

/-- `makeIdFromArgs(args...)`: join the arguments when `numArgs > 0`, else
produce an id from the post-incremented `uint32_t` counter `_autoId` (which
goes through the unsigned `stringify`, width 8). -/
def makeIdFromArgs (s : Store T) (args : List SpArg) : String × Store T :=
  let numArgs := toInt8 args.length
  if 0 < numArgs then (makeIdFrom s args, s)
  else (stringifyU s.autoId, { s with autoId := (s.autoId + 1) % 4294967296 })

/-- `createId(obj)`: the installed create-id callback when present, else an
id from the post-incremented `_autoId` counter. -/
def createId (s : Store T) (v : T) : String × Store T :=
  match s.createIdCB with
  | some f => (f v, s)
  | none => (stringifyU s.autoId, { s with autoId := (s.autoId + 1) % 4294967296 })

/-- `addObjFromArgs(args...)`: construct the object, synthesise its id with
`createId`, and insert only when `indexOf` reports the id/object absent;
otherwise return `nullptr` (here `none`) leaving both vectors unchanged. -/
def addObjFromArgs [Inhabited T] (s : Store T) (v : T) : Option Nat × Store T :=
  let c := createId s v
  let r := indexOf c.2 c.1 (some v)
  let s1 := r.2
  if r.1 = -1 then
    let k := s1.index.toNat
    (some k,
     { s1 with added := true, ids := s1.ids.insertIdx k c.1, objs := s1.objs.insertIdx k v })
  else (none, s1)

/-- `getObjById(id)`: pointer to the object when found, else `nullptr`. -/
def getObjById [Inhabited T] (s : Store T) (id : String) : Option T × Store T :=
  let r := indexOf s id none
  if -1 < r.1 then (r.2.objs.get? r.2.index.toNat, r.2) else (none, r.2)

/-- `getObjFromArgs(args...)`: probe with a transient object and an empty id. -/
def getObjFromArgs [Inhabited T] (s : Store T) (v : T) : Option T × Store T :=
  let r := indexOf s "" (some v)
  if -1 < r.1 then (r.2.objs.get? r.2.index.toNat, r.2) else (none, r.2)

/-- `getIdFromArgs(args...)`: the id of the matching entry, else `""`. -/
def getIdFromArgs [Inhabited T] (s : Store T) (v : T) : String × Store T :=
  let r := indexOf s "" (some v)
  if -1 < r.1 then (r.2.ids.getD r.2.index.toNat "", r.2) else ("", r.2)

/-- `deleteObjById(id)`: erase the entry at the found position from both
vectors and report success. -/
def deleteObjById [Inhabited T] (s : Store T) (id : String) : Bool × Store T :=
  let r := indexOf s id none
  if r.1 = -1 then (false, r.2)
  else
    let k := r.2.index.toNat
    (true, { r.2 with ids := r.2.ids.eraseIdx k, objs := r.2.objs.eraseIdx k })

/-- `deleteObjFromArgs(args...)`: delete via an object probe with empty id. -/
def deleteObjFromArgs [Inhabited T] (s : Store T) (v : T) : Bool × Store T :=
  let r := indexOf s "" (some v)
  if r.1 = -1 then (false, r.2)
  else
    let k := r.2.index.toNat
    (true, { r.2 with ids := r.2.ids.eraseIdx k, objs := r.2.objs.eraseIdx k })

/-- `reset()`: clear both vectors; every other member is untouched. -/
def reset (s : Store T) : Store T := { s with ids := [], objs := [] }

/-- The `forEach` loop: visit `(id, object)` pairs in storage order, stopping
after the first callback that returns `false`.  The returned list is the
sequence of pairs passed to the callback. -/
def forEachVisited : List String → List T → (String → T → Bool) → List (String × T)
  | i :: is, o :: os, f => if f i o then (i, o) :: forEachVisited is os f else [(i, o)]
  | _, _, _ => []

/-- `forEach(callback)` on a store (the id-and-object overload; the
object-only overload visits the same slots in the same order). -/
def forEach (s : Store T) (f : String → T → Bool) : List (String × T) :=
  forEachVisited s.ids s.objs f

/-- `getSize()`: the number of stored objects. -/
def getSize (s : Store T) : Nat := s.ids.length

/-- `isAdded()`: the `_added` flag. -/
def isAdded (s : Store T) : Bool := s.added

/-- `getSorting()`. -/
def getSorting (s : Store T) : sposSort := s.sorting

/-- `getCapacityInc()`. -/
def getCapacityInc (s : Store T) : Nat := s.capaInc

/-- `setCapacityInc(newInc)`: stores the value only when `newInc > 1`. -/
def setCapacityInc (s : Store T) (newInc : Nat) : Store T :=
  if 1 < newInc then { s with capaInc := newInc } else s

/-- `getIdSeparator()`. -/
def getIdSeparator (s : Store T) : String := s.idSep

/-- `setIdSeparator(separator)`: stores the value only when non-empty. -/
def setIdSeparator (s : Store T) (separator : String) : Store T :=
  if 0 < separator.length then { s with idSep := separator } else s

/-- `getIdNumDecimals()`. -/
def getIdNumDecimals (s : Store T) : Nat := s.idNumDecimals

/-- `setIdNumDecimals(decimals)`: stores the value only when positive. -/
def setIdNumDecimals (s : Store T) (decimals : Nat) : Store T :=
  if 0 < decimals then { s with idNumDecimals := decimals } else s

/-- `getIdNumDigits()`. -/
def getIdNumDigits (s : Store T) : Nat := s.idNumDigits

/-- `setIdNumDigits(digits)`: stores the value only when positive. -/
def setIdNumDigits (s : Store T) (digits : Nat) : Store T :=
  if 0 < digits then { s with idNumDigits := digits } else s

/-- The re-insertion loop of `recreate`: for each saved `(id, object)` pair,
`setObjWithId(old_ids[i], old_objects[i])` when ids are preserved, else
`setObjWithId(createId(old_objects[i]), old_objects[i])`. -/
def reinsertAll [Inhabited T] (preserveIds : Bool) : Store T → List (String × T) → Store T
  | s, [] => s
  | s, p :: rest =>
    if preserveIds then reinsertAll preserveIds (setObjWithId s p.1 p.2).2 rest
    else
      let c := createId s p.2
      reinsertAll preserveIds (setObjWithId c.2 c.1 p.2).2 rest

/-- `recreate(preserveIds)`: when the store is non-empty, snapshot the
`(id, object)` pairs, `reset()`, and re-insert each pair through
`setObjWithId` (the snapshot vector `old_ids` holds the original ids at the
indices the loop reads; `setCapacity` is unobservable). -/
def recreate [Inhabited T] (s : Store T) (preserveIds : Bool) : Store T :=
  if s.ids.length = 0 then s
  else reinsertAll preserveIds (reset s) (s.ids.zip s.objs)

/-- `setSorting(sorting)`: no-op when unchanged; store the new mode, and
recreate with preserved ids when the new mode is not `None`. -/
def setSorting [Inhabited T] (s : Store T) (sorting : sposSort) : Store T :=
  if sorting = s.sorting then s
  else
    let s' := { s with sorting := sorting }
    if sorting ≠ sposSort.None then recreate s' true else s'

/-- `setCompareCallback(callback)`: install the callback and recreate with
preserved ids.  (The source's guard compares the address of the member with
the address of the by-value parameter, which are never equal, so the body
always runs.) -/
def setCompareCallback [Inhabited T] (s : Store T) (cb : T → T → Int) : Store T :=
  recreate { s with compareCB := some cb } true

/-- `setCreateIdCallback(callback)`: install the callback and recreate with
newly created ids (same always-false address guard as above). -/
def setCreateIdCallback [Inhabited T] (s : Store T) (f : T → String) : Store T :=
  recreate { s with createIdCB := some f } false

/-- One public mutating or probing call on the store, for quantifying over
call sequences.  Constructor-argument packs are replaced by the values they
construct, as in the operation models above. -/
inductive SpOp (T : Type) where
  | addW (id : String) (v : T)
  | addFrom (v : T)
  | setW (id : String) (v : T)
  | getById (id : String)
  | getFrom (v : T)
  | getIdFrom (v : T)
  | delById (id : String)
  | delFrom (v : T)
  | rst
  | setSort (x : sposSort)
  | setCmp (cb : T → T → Int)
  | setCreate (f : T → String)
  | setCapa (n : Nat)
  | setSep (sep : String)
  | setDigits (d : Nat)
  | setDecimals (d : Nat)

/-- Apply one call, discarding its return value. -/
def applyOp [Inhabited T] (s : Store T) : SpOp T → Store T
  | .addW id v => (addObjWithId s id v).2
  | .addFrom v => (addObjFromArgs s v).2
  | .setW id v => (setObjWithId s id v).2
  | .getById id => (getObjById s id).2
  | .getFrom v => (getObjFromArgs s v).2
  | .getIdFrom v => (getIdFromArgs s v).2
  | .delById id => (deleteObjById s id).2
  | .delFrom v => (deleteObjFromArgs s v).2
  | .rst => reset s
  | .setSort x => setSorting s x
  | .setCmp cb => setCompareCallback s cb
  | .setCreate f => setCreateIdCallback s f
  | .setCapa n => setCapacityInc s n
  | .setSep sep => setIdSeparator s sep
  | .setDigits d => setIdNumDigits s d
  | .setDecimals d => setIdNumDecimals s d

/-- Run a sequence of calls left to right. -/
def runOps [Inhabited T] (s : Store T) (ops : List (SpOp T)) : Store T :=
  ops.foldl applyOp s

/-- Calls that never install a compare callback. -/
def isPlainOp : SpOp T → Bool
  | .setCmp _ => false
  | _ => true

/-- The three insert calls. -/
def isInsertOp : SpOp T → Bool
  | .addW _ _ => true
  | .addFrom _ => true
  | .setW _ _ => true
  | _ => false

/-- Append an id only when it is new: the spec-side description of one
insert on an unordered store. -/
def pushIfNew (acc : List String) (id : String) : List String :=
  if id ∈ acc then acc else acc ++ [id]

/-- Modelled from the spec: the identifier sequence an unordered store should
hold after a sequence of inserts - each insert appends its (possibly
auto-generated) id at the end unless it is already present.  Used as the
reference for the insertion-order property of unordered stores. -/
def specInsIds : List String → Nat → List (SpOp T) → List String
  | acc, _, [] => acc
  | acc, auto, op :: rest =>
    match op with
    | .addW id _ => specInsIds (pushIfNew acc id) auto rest
    | .setW id _ => specInsIds (pushIfNew acc id) auto rest
    | .addFrom _ => specInsIds (pushIfNew acc (stringifyU auto)) ((auto + 1) % 4294967296) rest
    | _ => specInsIds acc auto rest

/-- The strict id order maintained by a store sorted by ids. -/
abbrev idLt (srt : sposSort) (a b : String) : Prop := compareIds srt a b < 0

/-- The strict (object, id) lexicographic order maintained by a store sorted
through a compare callback: objects first, ids breaking ties. -/
abbrev valIdLt (cb : T → T → Int) (p q : T × String) : Prop :=
  cb p.1 q.1 < 0 ∨ (cb p.1 q.1 = 0 ∧ strcmp p.2 q.2 < 0)

/-- The same lexicographic order with the id tie-break adjusted by the id
sorting mode, as `indexOf` performs it: the tie compares ids through
`compareIds`, which negates `strcmp` under `DESC`. -/
abbrev valIdLtS (cb : T → T → Int) (srt : sposSort) (p q : T × String) : Prop :=
  cb p.1 q.1 < 0 ∨ (cb p.1 q.1 = 0 ∧ compareIds srt p.2 q.2 < 0)

/-- A compare callback that realises a consistent three-way comparison:
antisymmetric in sign, transitive on its strict part, and substitutive on
its equivalence. -/
def lawfulCmp (cb : T → T → Int) : Prop :=
  (∀ a b, cb a b < 0 ↔ 0 < cb b a) ∧
  (∀ a b c, cb a b < 0 → cb b c < 0 → cb a c < 0) ∧
  (∀ a b c, cb a b = 0 → cb a c = cb b c)

/-- Well-formedness of a store that has no compare callback: the vectors are
aligned, ids are unique, and when an id sorting is active the ids are
strictly ordered by it. -/
structure WFP (s : Store T) : Prop where
  cb_none : s.compareCB = none
  len_eq : s.objs.length = s.ids.length
  nodup : s.ids.Nodup
  sorted : s.sorting ≠ sposSort.None → s.ids.Pairwise (idLt s.sorting)

/-- A concrete compare callback on natural numbers, used by the concrete
comparator-store computations below. -/
def natCmp (a b : Nat) : Int :=
  if a < b then -1 else if b < a then 1 else 0

/-! ## Order properties of `strcmp` and `compareIds` -/

theorem chr_eq_of_toNat_eq {a b : Char} (h : a.toNat = b.toNat) : a = b :=
  Char.eq_of_val_eq (UInt32.toNat.inj h)

theorem strcmpL_self : ∀ xs : List Char, strcmpL xs xs = 0
  | [] => rfl
  | _ :: as => by
    simp only [strcmpL, lt_irrefl, if_false]
    exact strcmpL_self as

theorem strcmpL_eq_zero : ∀ xs ys : List Char, strcmpL xs ys = 0 → xs = ys
  | [], [] => fun _ => rfl
  | [], _ :: _ => by intro h; simp [strcmpL] at h
  | _ :: _, [] => by intro h; simp [strcmpL] at h
  | a :: as, b :: bs => by
    intro h
    simp only [strcmpL] at h
    by_cases h1 : a.toNat < b.toNat
    · simp [h1] at h
    · by_cases h2 : b.toNat < a.toNat
      · simp [h1, h2] at h
      · have hab : a = b := chr_eq_of_toNat_eq (by omega)
        simp only [h1, if_false, h2] at h
        rw [hab, strcmpL_eq_zero as bs h]

theorem strcmp_eq_zero_iff (a b : String) : strcmp a b = 0 ↔ a = b := by
  constructor
  · intro h
    cases a; cases b
    exact congrArg String.mk (strcmpL_eq_zero _ _ h)
  · rintro rfl
    exact strcmpL_self a.data

theorem strcmpL_swap : ∀ xs ys : List Char, strcmpL ys xs = -strcmpL xs ys
  | [], [] => rfl
  | [], _ :: _ => rfl
  | _ :: _, [] => rfl
  | a :: as, b :: bs => by
    simp only [strcmpL]
    by_cases h1 : a.toNat < b.toNat
    · simp [h1, Nat.lt_asymm h1]
    · by_cases h2 : b.toNat < a.toNat
      · simp [h1, h2]
      · simp only [h1, h2, if_false]
        exact strcmpL_swap as bs

theorem strcmp_swap (a b : String) : strcmp b a = -strcmp a b :=
  strcmpL_swap a.data b.data

theorem strcmpL_trans_neg :
    ∀ xs ys zs : List Char, strcmpL xs ys < 0 → strcmpL ys zs < 0 → strcmpL xs zs < 0
  | [], [], _ => by intro h; simp [strcmpL] at h
  | [], _ :: _, [] => by intro _ h; simp [strcmpL] at h
  | [], _ :: _, _ :: _ => by intro _ _; simp [strcmpL]
  | _ :: _, [], _ => by intro h; simp [strcmpL] at h
  | _ :: _, _ :: _, [] => by intro _ h; simp [strcmpL] at h
  | a :: as, b :: bs, c :: cs => by
    intro h1 h2
    simp only [strcmpL] at h1 h2 ⊢
    by_cases hab : a.toNat < b.toNat
    · -- a < b; combine with b ≤ c from h2
      by_cases hbc : b.toNat < c.toNat
      · simp [show a.toNat < c.toNat by omega]
      · by_cases hcb : c.toNat < b.toNat
        · simp [hbc, hcb] at h2
        · simp [show a.toNat < c.toNat by omega]
    · by_cases hba : b.toNat < a.toNat
      · simp [hab, hba] at h1
      · -- a.toNat = b.toNat, h1 is about tails
        simp only [hab, hba, if_false] at h1
        by_cases hbc : b.toNat < c.toNat
        · simp [show a.toNat < c.toNat by omega]
        · by_cases hcb : c.toNat < b.toNat
          · simp [hbc, hcb] at h2
          · simp only [hbc, hcb, if_false] at h2
            simp only [show ¬ a.toNat < c.toNat by omega, show ¬ c.toNat < a.toNat by omega,
              if_false]
            exact strcmpL_trans_neg as bs cs h1 h2

theorem strcmp_trans_neg (a b c : String) (h1 : strcmp a b < 0) (h2 : strcmp b c < 0) :
    strcmp a c < 0 :=
  strcmpL_trans_neg a.data b.data c.data h1 h2

theorem strcmp_le_lt_trans (a b c : String) (h1 : strcmp a b ≤ 0) (h2 : strcmp b c < 0) :
    strcmp a c < 0 := by
  rcases lt_or_eq_of_le h1 with h | h
  · exact strcmp_trans_neg a b c h h2
  · rw [(strcmp_eq_zero_iff a b).mp h]
    exact h2

theorem strcmp_lt_le_trans (a b c : String) (h1 : strcmp a b < 0) (h2 : strcmp b c ≤ 0) :
    strcmp a c < 0 := by
  rcases lt_or_eq_of_le h2 with h | h
  · exact strcmp_trans_neg a b c h1 h
  · rw [← (strcmp_eq_zero_iff b c).mp h]
    exact h1

theorem compareIds_eq_zero_iff (srt : sposSort) (a b : String) :
    compareIds srt a b = 0 ↔ a = b := by
  unfold compareIds
  by_cases h : srt = sposSort.DESC
  · simp [h, strcmp_eq_zero_iff]
  · simp [h, strcmp_eq_zero_iff]

theorem compareIds_swap (srt : sposSort) (a b : String) :
    compareIds srt b a = -compareIds srt a b := by
  unfold compareIds
  have e := strcmp_swap a b
  by_cases h : srt = sposSort.DESC
  · simp only [h, if_true]
    omega
  · simp only [h, if_false]
    omega

theorem idLt_trans {srt : sposSort} {a b c : String}
    (h1 : idLt srt a b) (h2 : idLt srt b c) : idLt srt a c := by
  unfold idLt compareIds at h1 h2 ⊢
  by_cases h : srt = sposSort.DESC
  · simp only [h, if_true] at h1 h2 ⊢
    have h1' : 0 < strcmp a b := by omega
    have h2' : 0 < strcmp b c := by omega
    have e1 := strcmp_swap b c
    have e2 := strcmp_swap a b
    have h3 : strcmp c a < 0 :=
      strcmp_trans_neg c b a (by omega) (by omega)
    have e3 := strcmp_swap c a
    omega
  · simp only [h, if_false] at h1 h2 ⊢
    exact strcmp_trans_neg a b c h1 h2

theorem idLt_irrefl (srt : sposSort) (a : String) : ¬ idLt srt a a := by
  unfold idLt
  rw [compareIds_eq_zero_iff srt a a |>.mpr rfl]
  omega

theorem idLt_of_pos {srt : sposSort} {a b : String} (h : 0 < compareIds srt a b) :
    idLt srt b a := by
  unfold idLt
  rw [compareIds_swap]
  omega

/-! ## The lower-bound loop -/

theorem lbAux_bounds (c : Nat → Int) :
    ∀ fuel first count, count ≤ fuel →
      ((lbAux c fuel first count).1 = -1 ∧ first ≤ (lbAux c fuel first count).2 ∧
        (lbAux c fuel first count).2 ≤ first + count) ∨
      (∃ k : Nat, (lbAux c fuel first count).1 = (k : Int) ∧ (lbAux c fuel first count).2 = k ∧
        first ≤ k ∧ k < first + count ∧ c k = 0) := by
  intro fuel
  induction fuel with
  | zero =>
    intro first count hcf
    have : count = 0 := Nat.le_zero.mp hcf
    subst this
    simp [lbAux]
  | succ fuel ih =>
    intro first count hcf
    by_cases hc : count = 0
    · subst hc; simp [lbAux]
    · have hcpos : 0 < count := Nat.pos_of_ne_zero hc
      have hstep : count / 2 < count := Nat.div_lt_self hcpos (by omega)
      by_cases hneg : c (first + count / 2) < 0
      · have hrec := ih (first + count / 2 + 1) (count - (count / 2 + 1)) (by omega)
        simp only [lbAux, hc, if_false, hneg, if_true]
        rcases hrec with ⟨h1, h2, h3⟩ | ⟨k, h1, h2, h3, h4, h5⟩
        · exact Or.inl ⟨h1, by omega, by omega⟩
        · exact Or.inr ⟨k, h1, h2, by omega, by omega, h5⟩
      · by_cases hzero : c (first + count / 2) = 0
        · simp only [lbAux, hc, if_false, hneg, hzero, if_true]
          exact Or.inr ⟨first + count / 2, rfl, rfl, by omega, by omega, hzero⟩
        · have hrec := ih first (count / 2) (by omega)
          simp only [lbAux, hc, if_false, hneg, hzero, if_true]
          rcases hrec with ⟨h1, h2, h3⟩ | ⟨k, h1, h2, h3, h4, h5⟩
          · exact Or.inl ⟨h1, h2, by omega⟩
          · exact Or.inr ⟨k, h1, h2, h3, by omega, h5⟩

theorem lbAux_spec (c : Nat → Int) (n : Nat)
    (mononeg : ∀ i j, i ≤ j → j < n → c j < 0 → c i < 0)
    (monopos : ∀ i j, i ≤ j → j < n → 0 < c i → 0 < c j) :
    ∀ fuel first count, count ≤ fuel → first + count ≤ n →
      (∀ i, i < first → c i < 0) →
      (∀ i, first + count ≤ i → i < n → 0 < c i) →
      ((∃ k : Nat, (lbAux c fuel first count).1 = (k : Int) ∧ (lbAux c fuel first count).2 = k ∧
          k < n ∧ c k = 0) ∨
       ((lbAux c fuel first count).1 = -1 ∧
        ∃ ip, (lbAux c fuel first count).2 = ip ∧ ip ≤ n ∧
          (∀ i, i < ip → c i < 0) ∧ (∀ i, ip ≤ i → i < n → 0 < c i))) := by
  intro fuel
  induction fuel with
  | zero =>
    intro first count hcf hn hlo hhi
    have : count = 0 := Nat.le_zero.mp hcf
    subst this
    refine Or.inr ⟨rfl, first, rfl, by omega, hlo, ?_⟩
    intro i hi hin
    exact hhi i (by omega) hin
  | succ fuel ih =>
    intro first count hcf hn hlo hhi
    by_cases hc : count = 0
    · subst hc
      refine Or.inr ⟨by simp [lbAux], first, by simp [lbAux], by omega, hlo, ?_⟩
      intro i hi hin
      exact hhi i (by omega) hin
    · have hcpos : 0 < count := Nat.pos_of_ne_zero hc
      have hstep : count / 2 < count := Nat.div_lt_self hcpos (by omega)
      have hsin : first + count / 2 < n := by omega
      by_cases hneg : c (first + count / 2) < 0
      · have hlo' : ∀ i, i < first + count / 2 + 1 → c i < 0 := by
          intro i hi
          exact mononeg i (first + count / 2) (by omega) hsin hneg
        have hrec := ih (first + count / 2 + 1) (count - (count / 2 + 1)) (by omega)
          (by omega) hlo' (by intro i hi hin; exact hhi i (by omega) hin)
        simp only [lbAux, hc, if_false, hneg, if_true]
        exact hrec
      · by_cases hzero : c (first + count / 2) = 0
        · simp only [lbAux, hc, if_false, hneg, hzero, if_true]
          exact Or.inl ⟨first + count / 2, rfl, rfl, hsin, hzero⟩
        · have hpos : 0 < c (first + count / 2) := by omega
          have hhi' : ∀ i, first + count / 2 ≤ i → i < n → 0 < c i := by
            intro i hi hin
            exact monopos (first + count / 2) i hi hin hpos
          have hrec := ih first (count / 2) (by omega) (by omega) hlo hhi'
          simp only [lbAux, hc, if_false, hneg, hzero, if_true]
          exact hrec

/-! ## The linear scan and `indexOf` -/

theorem linFind_eq_none : ∀ (l : List String) (id : String) (k : Nat),
    linFind l id k = none ↔ id ∉ l
  | [], id, k => by simp [linFind]
  | x :: xs, id, k => by
    by_cases h : x = id
    · simp [linFind, h]
    · simp only [linFind, h, if_false, List.mem_cons]
      rw [linFind_eq_none xs id (k + 1)]
      constructor
      · intro hn hmem
        rcases hmem with hh | ht
        · exact h hh.symm
        · exact hn ht
      · intro hn hm
        exact hn (Or.inr hm)

theorem linFind_eq_some : ∀ (l : List String) (id : String) (k j : Nat),
    linFind l id k = some j →
    ∃ (i : Nat) (h : i < l.length), j = k + i ∧ l.get ⟨i, h⟩ = id
  | [], id, k, j => by simp [linFind]
  | x :: xs, id, k, j => by
    by_cases h : x = id
    · intro hf
      simp only [linFind, h, if_true, Option.some.injEq] at hf
      exact ⟨0, by simp, by omega, h⟩
    · intro hf
      simp only [linFind, h, if_false] at hf
      obtain ⟨i, hi, hj, hget⟩ := linFind_eq_some xs id (k + 1) j hf
      exact ⟨i + 1, by simpa using hi, by omega, by simpa using hget⟩

theorem list_getD_eq_get {α : Type _} (l : List α) (d : α) (i : Nat) (h : i < l.length) :
    l.getD i d = l.get ⟨i, h⟩ := by
  simp [List.getD_eq_getElem?_getD, List.getElem?_eq_getElem h]

theorem indexOf_state [Inhabited T] (s : Store T) (id : String) (obj : Option T) :
    (indexOf s id obj).2 = { s with index := (indexOf s id obj).2.index } := by
  unfold indexOf
  by_cases h1 : -1 < s.index ∧ s.index < (s.ids.length : Int) ∧ s.ids.getD s.index.toNat "" = id
  · rw [if_pos h1]
  · rw [if_neg h1]
    by_cases h2 : isSorted s = true
    · rw [if_pos h2]
    · rw [if_neg h2]
      cases hfind : linFind s.ids id 0 <;> simp [hfind]

theorem indexOf_bounds [Inhabited T] (s : Store T) (id : String) (obj : Option T) :
    0 ≤ (indexOf s id obj).2.index ∧
    (indexOf s id obj).2.index.toNat ≤ s.ids.length ∧
    ((indexOf s id obj).1 ≠ -1 →
      (indexOf s id obj).2.index.toNat < s.ids.length ∧
      (indexOf s id obj).1 = (indexOf s id obj).2.index) := by
  unfold indexOf
  by_cases h1 : -1 < s.index ∧ s.index < (s.ids.length : Int) ∧ s.ids.getD s.index.toNat "" = id
  · rw [if_pos h1]
    dsimp only
    obtain ⟨ha, hb, _⟩ := h1
    exact ⟨by omega, by omega, fun _ => ⟨by omega, rfl⟩⟩
  · rw [if_neg h1]
    by_cases h2 : isSorted s = true
    · rw [if_pos h2]
      dsimp only
      rcases lbAux_bounds (indexOfCmp s id obj) s.ids.length 0 s.ids.length le_rfl with
        ⟨hr, hlo, hhi⟩ | ⟨k, hr, hfin, _, hk, _⟩
      · rw [hr]
        refine ⟨by simp, by simpa using hhi, fun hne => absurd rfl hne⟩
      · rw [hr, hfin]
        have hk' : k < s.ids.length := by simpa using hk
        exact ⟨by simp, by simp only [Int.toNat_natCast]; omega,
          fun _ => ⟨by simp only [Int.toNat_natCast]; omega, rfl⟩⟩
    · rw [if_neg h2]
      cases hfind : linFind s.ids id 0 with
      | none =>
        dsimp only
        exact ⟨by simp, by simp, fun hne => absurd rfl hne⟩
      | some k =>
        obtain ⟨i, hi, hki, _⟩ := linFind_eq_some s.ids id 0 k hfind
        dsimp only
        exact ⟨by simp, by simp only [Int.toNat_natCast]; omega,
          fun _ => ⟨by simp only [Int.toNat_natCast]; omega, rfl⟩⟩

theorem indexOfCmp_cb_none [Inhabited T] {s : Store T} (h : s.compareCB = none)
    (id : String) (obj : Option T) (k : Nat) :
    indexOfCmp s id obj k = compareIds s.sorting (s.ids.getD k "") id := by
  unfold indexOfCmp
  rw [h]

theorem indexOf_obj_irrel [Inhabited T] {s : Store T} (h : s.compareCB = none)
    (id : String) (obj obj' : Option T) :
    indexOf s id obj = indexOf s id obj' := by
  have hc : indexOfCmp s id obj = indexOfCmp s id obj' := by
    funext k
    rw [indexOfCmp_cb_none h, indexOfCmp_cb_none h]
  unfold indexOf
  rw [hc]

theorem indexOf_plain_spec [Inhabited T] (s : Store T) (id : String) (obj : Option T)
    (hcb : s.compareCB = none) (hsrt : s.sorting ≠ sposSort.None → s.ids.Pairwise (idLt s.sorting)) :
    ((indexOf s id obj).1 ≠ -1 →
      id ∈ s.ids ∧ (indexOf s id obj).1 = (indexOf s id obj).2.index ∧
      ∃ (k : Nat) (hk : k < s.ids.length),
        (indexOf s id obj).2.index = (k : Int) ∧ s.ids.get ⟨k, hk⟩ = id) ∧
    ((indexOf s id obj).1 = -1 →
      id ∉ s.ids ∧
      ∃ ip : Nat, (indexOf s id obj).2.index = (ip : Int) ∧ ip ≤ s.ids.length ∧
        (s.sorting = sposSort.None → ip = s.ids.length) ∧
        (s.sorting ≠ sposSort.None →
          (∀ i (hi : i < s.ids.length), i < ip → idLt s.sorting (s.ids.get ⟨i, hi⟩) id) ∧
          (∀ i (hi : i < s.ids.length), ip ≤ i → idLt s.sorting id (s.ids.get ⟨i, hi⟩)))) := by
  unfold indexOf
  by_cases h1 : -1 < s.index ∧ s.index < (s.ids.length : Int) ∧ s.ids.getD s.index.toNat "" = id
  · rw [if_pos h1]
    dsimp only
    obtain ⟨ha, hb, hc⟩ := h1
    have hk : s.index.toNat < s.ids.length := by omega
    have hgot : s.ids.get ⟨s.index.toNat, hk⟩ = id := by
      rw [← list_getD_eq_get s.ids "" _ hk]
      exact hc
    constructor
    · intro _
      refine ⟨by rw [← hgot]; exact List.get_mem _ _ _, rfl, s.index.toNat, hk, by omega, hgot⟩
    · intro habs
      exact absurd habs (by omega)
  · rw [if_neg h1]
    by_cases h2 : isSorted s = true
    · have hne : s.sorting ≠ sposSort.None := by
        unfold isSorted at h2
        rw [hcb] at h2
        simpa using h2
      have hpg := (List.pairwise_iff_get).mp (hsrt hne)
      have hcval : ∀ k (hk : k < s.ids.length),
          indexOfCmp s id obj k = compareIds s.sorting (s.ids.get ⟨k, hk⟩) id := by
        intro k hk
        rw [indexOfCmp_cb_none hcb, list_getD_eq_get s.ids "" k hk]
      have mononeg : ∀ i j, i ≤ j → j < s.ids.length →
          indexOfCmp s id obj j < 0 → indexOfCmp s id obj i < 0 := by
        intro i j hij hj hcj
        rcases Nat.eq_or_lt_of_le hij with rfl | hlt
        · exact hcj
        · have hi : i < s.ids.length := lt_trans hlt hj
          rw [hcval j hj] at hcj
          rw [hcval i hi]
          exact idLt_trans (hpg ⟨i, hi⟩ ⟨j, hj⟩ hlt) hcj
      have monopos : ∀ i j, i ≤ j → j < s.ids.length →
          0 < indexOfCmp s id obj i → 0 < indexOfCmp s id obj j := by
        intro i j hij hj hci
        rcases Nat.eq_or_lt_of_le hij with rfl | hlt
        · exact hci
        · have hi : i < s.ids.length := lt_trans hlt hj
          rw [hcval i hi] at hci
          rw [hcval j hj]
          have h1' : idLt s.sorting id (s.ids.get ⟨i, hi⟩) := idLt_of_pos hci
          have h2' : idLt s.sorting id (s.ids.get ⟨j, hj⟩) :=
            idLt_trans h1' (hpg ⟨i, hi⟩ ⟨j, hj⟩ hlt)
          have hsw := compareIds_swap s.sorting id (s.ids.get ⟨j, hj⟩)
          unfold idLt at h2'
          omega
      rw [if_pos h2]
      dsimp only
      rcases lbAux_spec (indexOfCmp s id obj) s.ids.length mononeg monopos
          s.ids.length 0 s.ids.length le_rfl (by omega)
          (by intro i hi; omega) (by intro i hi hin; omega) with
        ⟨k, hr1, hr2, hk, hck⟩ | ⟨hr1, ip, hr2, hip, hlo, hhi⟩
      · rw [hr1, hr2]
        rw [hcval k hk] at hck
        have hid : s.ids.get ⟨k, hk⟩ = id := (compareIds_eq_zero_iff _ _ _).mp hck
        constructor
        · intro _
          exact ⟨by rw [← hid]; exact List.get_mem _ _ _, rfl, k, hk, rfl, hid⟩
        · intro habs
          exact absurd habs (by omega)
      · rw [hr1, hr2]
        have hnotin : id ∉ s.ids := by
          intro hmem
          obtain ⟨⟨i, hi⟩, hgi⟩ := List.mem_iff_get.mp hmem
          have hci : indexOfCmp s id obj i = 0 := by
            rw [hcval i hi, hgi]
            exact (compareIds_eq_zero_iff _ _ _).mpr rfl
          by_cases hiip : i < ip
          · have := hlo i hiip
            omega
          · have := hhi i (by omega) hi
            omega
        constructor
        · intro habs
          exact absurd rfl habs
        · intro _
          refine ⟨hnotin, ip, rfl, hip, fun h0 => absurd h0 hne, fun _ => ⟨?_, ?_⟩⟩
          · intro i hi hiip
            have := hlo i hiip
            rw [hcval i hi] at this
            exact this
          · intro i hi hipi
            have := hhi i hipi hi
            rw [hcval i hi] at this
            exact idLt_of_pos this
    · have hNone : s.sorting = sposSort.None := by
        unfold isSorted at h2
        rw [hcb] at h2
        simpa using h2
      rw [if_neg h2]
      cases hfind : linFind s.ids id 0 with
      | some k =>
        obtain ⟨i, hi, hki, hgi⟩ := linFind_eq_some s.ids id 0 k hfind
        dsimp only
        constructor
        · intro _
          refine ⟨by rw [← hgi]; exact List.get_mem _ _ _, rfl, i, hi, by omega, hgi⟩
        · intro habs
          exact absurd habs (by omega)
      | none =>
        have hnotin := (linFind_eq_none s.ids id 0).mp hfind
        dsimp only
        constructor
        · intro habs
          exact absurd rfl habs
        · intro _
          exact ⟨hnotin, s.ids.length, rfl, le_rfl, fun _ => rfl, fun habs => absurd hNone habs⟩

/-! ## Insertion helpers -/

theorem insertIdx_eq_take_cons_drop {α : Type _} :
    ∀ (k : Nat) (l : List α) (a : α), k ≤ l.length →
      l.insertIdx k a = l.take k ++ a :: l.drop k
  | 0, l, a, _ => by simp
  | k + 1, [], a, h => by simp at h
  | k + 1, x :: xs, a, h => by
    simp only [List.insertIdx_succ_cons, List.take_succ_cons, List.drop_succ_cons,
      List.cons_append]
    rw [insertIdx_eq_take_cons_drop k xs a (by simpa using h)]

theorem pairwise_insertIdx {α : Type _} {r : α → α → Prop} {l : List α} {k : Nat} {a : α}
    (hk : k ≤ l.length) (hp : l.Pairwise r)
    (hbefore : ∀ x ∈ l.take k, r x a) (hafter : ∀ x ∈ l.drop k, r a x) :
    (l.insertIdx k a).Pairwise r := by
  rw [insertIdx_eq_take_cons_drop k l a hk]
  have hsplit : (l.take k ++ l.drop k).Pairwise r := by
    rw [List.take_append_drop]
    exact hp
  obtain ⟨hpt, hpd, hcross⟩ := List.pairwise_append.mp hsplit
  refine List.pairwise_append.mpr ⟨hpt, List.pairwise_cons.mpr ⟨hafter, hpd⟩, ?_⟩
  intro x hx y hy
  rcases List.mem_cons.mp hy with rfl | hy'
  · exact hbefore x hx
  · exact hcross x hx y hy'

theorem nodup_insertIdx {α : Type _} {l : List α} {k : Nat} {a : α} (hk : k ≤ l.length)
    (hnd : l.Nodup) (ha : a ∉ l) : (l.insertIdx k a).Nodup := by
  rw [insertIdx_eq_take_cons_drop k l a hk]
  have hnd' : (a :: (l.take k ++ l.drop k)).Nodup := by
    rw [List.take_append_drop]
    exact List.nodup_cons.mpr ⟨ha, hnd⟩
  exact hnd'.perm List.perm_middle.symm

theorem mem_insertIdx_iff {α : Type _} {l : List α} {k : Nat} {a x : α} (hk : k ≤ l.length) :
    x ∈ l.insertIdx k a ↔ x = a ∨ x ∈ l := by
  rw [insertIdx_eq_take_cons_drop k l a hk]
  constructor
  · intro h
    rcases List.mem_append.mp h with h' | h'
    · exact Or.inr (List.mem_of_mem_take h')
    · rcases List.mem_cons.mp h' with rfl | h''
      · exact Or.inl rfl
      · exact Or.inr (List.mem_of_mem_drop h'')
  · intro h
    rcases h with rfl | h'
    · exact List.mem_append.mpr (Or.inr (List.mem_cons_self _ _))
    · rw [← List.take_append_drop k l] at h'
      rcases List.mem_append.mp h' with h'' | h''
      · exact List.mem_append.mpr (Or.inl h'')
      · exact List.mem_append.mpr (Or.inr (List.mem_cons_of_mem _ h''))

theorem mem_take_imp {α : Type _} {l : List α} {k : Nat} {x : α} (h : x ∈ l.take k) :
    ∃ (i : Nat) (hi : i < l.length), i < k ∧ l.get ⟨i, hi⟩ = x := by
  obtain ⟨⟨i, hi⟩, hget⟩ := List.mem_iff_get.mp h
  have hml : i < min k l.length := by simpa [List.length_take] using hi
  have hlt : i < l.length := by omega
  refine ⟨i, hlt, by omega, ?_⟩
  rw [← hget]
  simp [List.get_eq_getElem]

theorem mem_drop_imp {α : Type _} {l : List α} {k : Nat} {x : α} (h : x ∈ l.drop k) :
    ∃ (i : Nat) (hi : i < l.length), k ≤ i ∧ l.get ⟨i, hi⟩ = x := by
  obtain ⟨⟨i, hi⟩, hget⟩ := List.mem_iff_get.mp h
  have hml : i < l.length - k := by simpa [List.length_drop] using hi
  refine ⟨k + i, by omega, by omega, ?_⟩
  rw [← hget]
  simp [List.get_eq_getElem]

theorem zip_insertIdx {α β : Type _} :
    ∀ (k : Nat) (l : List α) (m : List β) (a : α) (b : β),
      l.length = m.length → k ≤ l.length →
      (l.insertIdx k a).zip (m.insertIdx k b) = (l.zip m).insertIdx k (a, b)
  | 0, l, m, a, b, h, hk => by simp
  | k + 1, [], m, a, b, h, hk => by simp at hk
  | k + 1, x :: xs, m, a, b, h, hk => by
    cases m with
    | nil => simp at h
    | cons y ys =>
      simp only [List.insertIdx_succ_cons, List.zip_cons_cons]
      rw [zip_insertIdx k xs ys a b (by simpa using h) (by simpa using hk)]

/-! ## The upsert operations on well-formed comparator-free stores -/

theorem addObjWithId_eq_setObjWithId [Inhabited T] {s : Store T} (hcb : s.compareCB = none)
    (id : String) (v : T) : addObjWithId s id v = setObjWithId s id v := by
  unfold addObjWithId setObjWithId
  rw [indexOf_obj_irrel hcb id none (some v)]

theorem setObjWithId_plain_spec [Inhabited T] (s : Store T) (id : String) (v : T)
    (hcb : s.compareCB = none)
    (hsrt : s.sorting ≠ sposSort.None → s.ids.Pairwise (idLt s.sorting))
    (hnd : s.ids.Nodup) (hlen : s.objs.length = s.ids.length) :
    ((setObjWithId s id v).2.compareCB = none ∧
     (setObjWithId s id v).2.sorting = s.sorting ∧
     (setObjWithId s id v).2.createIdCB = s.createIdCB ∧
     (setObjWithId s id v).2.autoId = s.autoId ∧
     (setObjWithId s id v).2.idSep = s.idSep ∧
     (setObjWithId s id v).2.idNumDigits = s.idNumDigits ∧
     (setObjWithId s id v).2.idNumDecimals = s.idNumDecimals ∧
     (setObjWithId s id v).2.capaInc = s.capaInc) ∧
    ((setObjWithId s id v).2.objs.length = (setObjWithId s id v).2.ids.length) ∧
    (setObjWithId s id v).2.ids.Nodup ∧
    ((setObjWithId s id v).2.sorting ≠ sposSort.None →
      (setObjWithId s id v).2.ids.Pairwise (idLt (setObjWithId s id v).2.sorting)) ∧
    0 ≤ (setObjWithId s id v).2.index ∧
    (setObjWithId s id v).2.index.toNat < (setObjWithId s id v).2.ids.length ∧
    (setObjWithId s id v).2.ids.getD (setObjWithId s id v).2.index.toNat "" = id ∧
    (setObjWithId s id v).2.objs.get? (setObjWithId s id v).2.index.toNat = some v ∧
    ((id ∈ s.ids ∧ (setObjWithId s id v).2.ids = s.ids ∧
      (setObjWithId s id v).2.objs = s.objs.set (setObjWithId s id v).2.index.toNat v ∧
      (setObjWithId s id v).2.added = false) ∨
     (id ∉ s.ids ∧ ∃ ip : Nat, (setObjWithId s id v).2.index = (ip : Int) ∧
       ip ≤ s.ids.length ∧
       (setObjWithId s id v).2.ids = s.ids.insertIdx ip id ∧
       (setObjWithId s id v).2.objs = s.objs.insertIdx ip v ∧
       (setObjWithId s id v).2.added = true ∧
       (s.sorting = sposSort.None → ip = s.ids.length))) := by
  have hspec := indexOf_plain_spec s id (some v) hcb hsrt
  have hstate := indexOf_state s id (some v)
  unfold setObjWithId
  by_cases hr : (indexOf s id (some v)).1 = -1
  · -- the id is absent: insert at the computed position
    obtain ⟨hni, ip, hix, hiple, hisNone, hisSorted⟩ := hspec.2 hr
    rw [if_pos hr]
    dsimp only
    rw [hstate, hix]
    dsimp only
    simp only [Int.toNat_natCast]
    have hipo : ip ≤ s.objs.length := by omega
    have hlenid : (s.ids.insertIdx ip id).length = s.ids.length + 1 :=
      List.length_insertIdx ip s.ids hiple
    have hlenobj : (s.objs.insertIdx ip v).length = s.objs.length + 1 :=
      List.length_insertIdx ip s.objs hipo
    refine ⟨⟨hcb, by simp, by simp, by simp, by simp, by simp, by simp, by simp⟩,
      by omega, ?_, ?_, by omega, by omega, ?_, ?_,
      Or.inr ⟨hni, ip, by simp, hiple, by simp, by simp, by simp, hisNone⟩⟩
    · exact nodup_insertIdx hiple hnd hni
    · intro hne
      refine pairwise_insertIdx hiple (hsrt hne) ?_ ?_
      · intro x hx
        obtain ⟨i, hi, hik, rfl⟩ := mem_take_imp hx
        exact (hisSorted hne).1 i hi hik
      · intro x hx
        obtain ⟨i, hi, hik, rfl⟩ := mem_drop_imp hx
        exact (hisSorted hne).2 i hi hik
    · rw [list_getD_eq_get _ _ ip (by omega)]
      have := List.getElem_insertIdx_self s.ids id ip hiple
      simpa [List.get_eq_getElem] using this
    · rw [List.get?_eq_getElem?]
      have := List.getElem_insertIdx_self s.objs v ip hipo
      rw [List.getElem?_eq_getElem (by omega)]
      simpa using this
  · -- the id is present: overwrite the object slot
    obtain ⟨hmem, hreq, k, hk, hix, hget⟩ := hspec.1 hr
    rw [if_neg hr]
    dsimp only
    rw [hstate, hix]
    dsimp only
    simp only [Int.toNat_natCast]
    have hko : k < s.objs.length := by omega
    refine ⟨⟨hcb, by simp, by simp, by simp, by simp, by simp, by simp, by simp⟩,
      by simpa using hlen, hnd, fun hne => hsrt hne, by omega, by simpa using hk, ?_, ?_,
      Or.inl ⟨hmem, by simp, by simp, by simp⟩⟩
    · rw [list_getD_eq_get _ _ k hk]
      exact hget
    · rw [List.get?_eq_getElem?]
      exact List.getElem?_set_self hko

/-! ## Field-preservation and deletion lemmas -/

theorem wfp_of_index_change {T : Type} {s s' : Store T} (h : WFP s)
    (he : s' = { s with index := s'.index }) : WFP s' := by
  rw [he]
  exact ⟨h.cb_none, h.len_eq, h.nodup, h.sorted⟩

theorem createId_fields {T : Type} (s : Store T) (v : T) :
    (createId s v).2.ids = s.ids ∧ (createId s v).2.objs = s.objs ∧
    (createId s v).2.compareCB = s.compareCB ∧ (createId s v).2.sorting = s.sorting ∧
    (createId s v).2.index = s.index ∧ (createId s v).2.createIdCB = s.createIdCB ∧
    (createId s v).2.added = s.added ∧ (createId s v).2.idSep = s.idSep ∧
    (createId s v).2.idNumDigits = s.idNumDigits := by
  unfold createId
  cases hc : s.createIdCB <;> simp [hc]

theorem createId_wfp {T : Type} {s : Store T} (h : WFP s) (v : T) : WFP (createId s v).2 := by
  obtain ⟨h1, h2, h3, h4, _⟩ := createId_fields s v
  refine ⟨?_, ?_, ?_, ?_⟩
  · rw [h3]; exact h.cb_none
  · rw [h1, h2]; exact h.len_eq
  · rw [h1]; exact h.nodup
  · rw [h1, h4]; exact h.sorted

theorem getObjById_state [Inhabited T] (s : Store T) (id : String) :
    (getObjById s id).2 = { s with index := (getObjById s id).2.index } := by
  unfold getObjById
  by_cases h : -1 < (indexOf s id none).1
  · rw [if_pos h]
    exact indexOf_state s id none
  · rw [if_neg h]
    exact indexOf_state s id none

theorem getObjFromArgs_state [Inhabited T] (s : Store T) (v : T) :
    (getObjFromArgs s v).2 = { s with index := (getObjFromArgs s v).2.index } := by
  unfold getObjFromArgs
  by_cases h : -1 < (indexOf s "" (some v)).1
  · rw [if_pos h]
    exact indexOf_state s "" (some v)
  · rw [if_neg h]
    exact indexOf_state s "" (some v)

theorem getIdFromArgs_state [Inhabited T] (s : Store T) (v : T) :
    (getIdFromArgs s v).2 = { s with index := (getIdFromArgs s v).2.index } := by
  unfold getIdFromArgs
  by_cases h : -1 < (indexOf s "" (some v)).1
  · rw [if_pos h]
    exact indexOf_state s "" (some v)
  · rw [if_neg h]
    exact indexOf_state s "" (some v)

theorem insertIdx_perm {α : Type _} (l : List α) (k : Nat) (a : α) (hk : k ≤ l.length) :
    List.Perm (l.insertIdx k a) (a :: l) := by
  rw [insertIdx_eq_take_cons_drop k l a hk]
  have := @List.perm_middle α a (l.take k) (l.drop k)
  rw [List.take_append_drop] at this
  exact this

theorem not_mem_eraseIdx_of_nodup {l : List String} {k : Nat} {id : String}
    (hk : k < l.length) (hnd : l.Nodup) (hget : l.get ⟨k, hk⟩ = id) :
    id ∉ l.eraseIdx k := by
  rw [List.eraseIdx_eq_take_drop_succ]
  intro hmem
  have hinj := List.nodup_iff_injective_get.mp hnd
  rcases List.mem_append.mp hmem with h' | h'
  · obtain ⟨i, hi, hik, hgi⟩ := mem_take_imp h'
    have : (⟨i, hi⟩ : Fin l.length) = ⟨k, hk⟩ := hinj (by rw [hgi, hget])
    have : i = k := congrArg Fin.val this
    omega
  · obtain ⟨i, hi, hik, hgi⟩ := mem_drop_imp h'
    have : (⟨i, hi⟩ : Fin l.length) = ⟨k, hk⟩ := hinj (by rw [hgi, hget])
    have : i = k := congrArg Fin.val this
    omega

theorem deleteObjById_plain_spec [Inhabited T] (s : Store T) (id : String)
    (hcb : s.compareCB = none)
    (hsrt : s.sorting ≠ sposSort.None → s.ids.Pairwise (idLt s.sorting))
    (hnd : s.ids.Nodup) (hlen : s.objs.length = s.ids.length) :
    ((deleteObjById s id).1 = true ↔ id ∈ s.ids) ∧
    ((deleteObjById s id).2.compareCB = none ∧
     (deleteObjById s id).2.sorting = s.sorting ∧
     (deleteObjById s id).2.createIdCB = s.createIdCB ∧
     (deleteObjById s id).2.autoId = s.autoId) ∧
    (deleteObjById s id).2.objs.length = (deleteObjById s id).2.ids.length ∧
    (deleteObjById s id).2.ids.Nodup ∧
    ((deleteObjById s id).2.sorting ≠ sposSort.None →
      (deleteObjById s id).2.ids.Pairwise (idLt (deleteObjById s id).2.sorting)) ∧
    id ∉ (deleteObjById s id).2.ids ∧
    (id ∉ s.ids → (deleteObjById s id).2.ids = s.ids ∧ (deleteObjById s id).2.objs = s.objs) := by
  have hspec := indexOf_plain_spec s id none hcb hsrt
  have hstate := indexOf_state s id none
  unfold deleteObjById
  by_cases hr : (indexOf s id none).1 = -1
  · obtain ⟨hni, ip, hix, _⟩ := hspec.2 hr
    rw [if_pos hr]
    rw [hstate]
    dsimp only
    refine ⟨?_, ⟨hcb, by simp, by simp, by simp⟩, hlen, hnd, fun hne => hsrt hne, hni,
      fun _ => ⟨rfl, rfl⟩⟩
    simp [hni]
  · obtain ⟨hmem, hreq, k, hk, hix, hget⟩ := hspec.1 hr
    rw [if_neg hr]
    dsimp only
    rw [hstate, hix]
    dsimp only
    simp only [Int.toNat_natCast]
    have hko : k < s.objs.length := by omega
    have hlid : (s.ids.eraseIdx k).length = s.ids.length - 1 := by
      rw [List.length_eraseIdx]
      simp [hk]
    have hlobj : (s.objs.eraseIdx k).length = s.objs.length - 1 := by
      rw [List.length_eraseIdx]
      simp [hko]
    refine ⟨by simp [hmem], ⟨hcb, by simp, by simp, by simp⟩, by omega, ?_, ?_, ?_, ?_⟩
    · exact hnd.sublist (List.eraseIdx_sublist s.ids k)
    · intro hne
      exact (hsrt hne).sublist (List.eraseIdx_sublist s.ids k)
    · exact not_mem_eraseIdx_of_nodup hk hnd hget
    · intro hno
      exact absurd hmem hno

theorem deleteObjFromArgs_eq [Inhabited T] {s : Store T} (hcb : s.compareCB = none) (v : T) :
    deleteObjFromArgs s v = deleteObjById s "" := by
  unfold deleteObjFromArgs deleteObjById
  rw [indexOf_obj_irrel hcb "" (some v) none]

theorem createId_eq {T : Type} (s : Store T) (v : T) :
    ∃ a : Nat, (createId s v).2 = { s with autoId := a } := by
  unfold createId
  cases hc : s.createIdCB
  · exact ⟨(s.autoId + 1) % 4294967296, rfl⟩
  · refine ⟨s.autoId, ?_⟩
    dsimp only
    conv_rhs => rw [← hc]

theorem addObjFromArgs_plain_spec [Inhabited T] (s : Store T) (v : T)
    (hcb : s.compareCB = none)
    (hsrt : s.sorting ≠ sposSort.None → s.ids.Pairwise (idLt s.sorting))
    (hnd : s.ids.Nodup) (hlen : s.objs.length = s.ids.length) :
    ((createId s v).1 ∉ s.ids →
      (addObjFromArgs s v).1.isSome = true ∧
      ∃ ip : Nat, ip ≤ s.ids.length ∧
        (addObjFromArgs s v).2.ids = s.ids.insertIdx ip (createId s v).1 ∧
        (addObjFromArgs s v).2.objs = s.objs.insertIdx ip v ∧
        (addObjFromArgs s v).2.added = true) ∧
    ((createId s v).1 ∈ s.ids →
      (addObjFromArgs s v).1 = none ∧ (addObjFromArgs s v).2.ids = s.ids ∧
      (addObjFromArgs s v).2.objs = s.objs ∧ (addObjFromArgs s v).2.added = s.added) ∧
    ((addObjFromArgs s v).2.compareCB = none ∧
     (addObjFromArgs s v).2.sorting = s.sorting ∧
     (addObjFromArgs s v).2.createIdCB = s.createIdCB) ∧
    (addObjFromArgs s v).2.objs.length = (addObjFromArgs s v).2.ids.length ∧
    (addObjFromArgs s v).2.ids.Nodup ∧
    ((addObjFromArgs s v).2.sorting ≠ sposSort.None →
      (addObjFromArgs s v).2.ids.Pairwise (idLt (addObjFromArgs s v).2.sorting)) := by
  obtain ⟨a, ha⟩ := createId_eq s v
  unfold addObjFromArgs
  dsimp only
  rw [ha]
  have hcb0 : (Store.mk s.ids s.objs s.index s.capaInc s.compareCB s.added s.sorting
      s.idSep a s.idNumDigits s.idNumDecimals s.idNumSize s.createIdCB).compareCB = none := hcb
  have hspec := indexOf_plain_spec { s with autoId := a } (createId s v).1 (some v) hcb hsrt
  have hstate := indexOf_state { s with autoId := a } (createId s v).1 (some v)
  dsimp only at hspec
  by_cases hr : (indexOf { s with autoId := a } (createId s v).1 (some v)).1 = -1
  · obtain ⟨hni, ip, hix, hiple, _, hSorted⟩ := hspec.2 hr
    rw [if_pos hr]
    dsimp only
    rw [hstate, hix]
    dsimp only
    simp only [Int.toNat_natCast]
    have hipo : ip ≤ s.objs.length := by omega
    have hlenid : (s.ids.insertIdx ip (createId s v).1).length = s.ids.length + 1 :=
      List.length_insertIdx ip s.ids hiple
    have hlenobj : (s.objs.insertIdx ip v).length = s.objs.length + 1 :=
      List.length_insertIdx ip s.objs hipo
    refine ⟨fun _ => ⟨by simp, ip, hiple, by simp, by simp, by simp⟩,
      fun hmem => absurd hmem hni, ⟨hcb, by trivial, by trivial⟩,
      by omega, nodup_insertIdx hiple hnd hni, ?_⟩
    intro hne
    refine pairwise_insertIdx hiple (hsrt hne) ?_ ?_
    · intro x hx
      obtain ⟨i, hi, hik, rfl⟩ := mem_take_imp hx
      exact (hSorted hne).1 i hi hik
    · intro x hx
      obtain ⟨i, hi, hik, rfl⟩ := mem_drop_imp hx
      exact (hSorted hne).2 i hi hik
  · obtain ⟨hmem, _⟩ := hspec.1 hr
    rw [if_neg hr]
    dsimp only
    rw [hstate]
    dsimp only
    exact ⟨fun hni => absurd hmem hni, fun _ => ⟨rfl, rfl, rfl, rfl⟩, ⟨hcb, rfl, rfl⟩,
      hlen, hnd, hsrt⟩

/-! ## Reconfiguration: `recreate` and the sorting/create-id setters -/

theorem setObjWithId_wfp [Inhabited T] {s : Store T} (h : WFP s) (id : String) (v : T) :
    WFP (setObjWithId s id v).2 ∧ (setObjWithId s id v).2.sorting = s.sorting ∧
    (setObjWithId s id v).2.createIdCB = s.createIdCB := by
  have hs := setObjWithId_plain_spec s id v h.cb_none h.sorted h.nodup h.len_eq
  exact ⟨⟨hs.1.1, hs.2.1, hs.2.2.1, hs.2.2.2.1⟩, hs.1.2.1, hs.1.2.2.1⟩

theorem reinsertAll_wfp [Inhabited T] (preserve : Bool) :
    ∀ (ps : List (String × T)) (acc : Store T), WFP acc →
      WFP (reinsertAll preserve acc ps) ∧
      (reinsertAll preserve acc ps).sorting = acc.sorting
  | [], acc, h => ⟨h, rfl⟩
  | p :: rest, acc, h => by
    unfold reinsertAll
    by_cases hp : preserve = true
    · rw [if_pos hp]
      obtain ⟨hw, hsort, _⟩ := setObjWithId_wfp h p.1 p.2
      obtain ⟨hw', hsort'⟩ := reinsertAll_wfp preserve rest _ hw
      exact ⟨hw', by rw [hsort', hsort]⟩
    · rw [if_neg hp]
      have hwc : WFP (createId acc p.2).2 := createId_wfp h p.2
      obtain ⟨hw, hsort, _⟩ := setObjWithId_wfp hwc (createId acc p.2).1 p.2
      obtain ⟨hw', hsort'⟩ := reinsertAll_wfp preserve rest _ hw
      refine ⟨hw', ?_⟩
      rw [hsort', hsort]
      exact (createId_fields acc p.2).2.2.2.1

theorem reinsertAll_true_perm [Inhabited T] :
    ∀ (ps : List (String × T)) (acc : Store T), WFP acc →
      (∀ p ∈ ps, p.1 ∉ acc.ids) → (ps.map Prod.fst).Nodup →
      List.Perm ((reinsertAll true acc ps).ids.zip (reinsertAll true acc ps).objs)
        ((acc.ids.zip acc.objs) ++ ps)
  | [], acc, h, _, _ => by
    unfold reinsertAll
    simp
  | p :: rest, acc, h, hfresh, hnd => by
    unfold reinsertAll
    rw [if_pos rfl]
    have hbig := setObjWithId_plain_spec acc p.1 p.2 h.cb_none h.sorted h.nodup h.len_eq
    have hni : p.1 ∉ acc.ids := hfresh p (List.mem_cons_self _ _)
    rcases hbig.2.2.2.2.2.2.2.2 with ⟨hmem, _⟩ | ⟨_, ip, hix, hiple, hids, hobjs, _⟩
    · exact absurd hmem hni
    · have hw : WFP (setObjWithId acc p.1 p.2).2 := (setObjWithId_wfp h p.1 p.2).1
      have hndc := List.nodup_cons.mp (show (p.1 :: rest.map Prod.fst).Nodup by
        rw [← List.map_cons]; exact hnd)
      have hfresh' : ∀ q ∈ rest, q.1 ∉ (setObjWithId acc p.1 p.2).2.ids := by
        intro q hq hqmem
        rw [hids] at hqmem
        rcases (mem_insertIdx_iff hiple).mp hqmem with heq | hmem'
        · have hmm : q.1 ∈ rest.map Prod.fst := List.mem_map_of_mem _ hq
          rw [heq] at hmm
          exact hndc.1 hmm
        · exact hfresh q (List.mem_cons_of_mem _ hq) hmem'
      have hrec := reinsertAll_true_perm rest (setObjWithId acc p.1 p.2).2 hw hfresh' hndc.2
      refine hrec.trans ?_
      have hzip : (setObjWithId acc p.1 p.2).2.ids.zip (setObjWithId acc p.1 p.2).2.objs
          = (acc.ids.zip acc.objs).insertIdx ip p := by
        rw [hids, hobjs]
        exact zip_insertIdx ip acc.ids acc.objs p.1 p.2 h.len_eq.symm hiple
      have hlz : ip ≤ (acc.ids.zip acc.objs).length := by
        rw [List.length_zip]
        have := h.len_eq
        omega
      have hperm1 : List.Perm ((setObjWithId acc p.1 p.2).2.ids.zip
          (setObjWithId acc p.1 p.2).2.objs) (p :: (acc.ids.zip acc.objs)) := by
        rw [hzip]
        exact insertIdx_perm _ ip p hlz
      have hstep := hperm1.append_right rest
      refine hstep.trans ?_
      rw [List.cons_append]
      exact List.perm_middle.symm

theorem recreate_wfp [Inhabited T] (s : Store T) (preserve : Bool) (hcb : s.compareCB = none)
    (hnd : s.ids.Nodup) (hlen : s.objs.length = s.ids.length) :
    WFP (recreate s preserve) ∧ (recreate s preserve).sorting = s.sorting := by
  unfold recreate
  by_cases hz : s.ids.length = 0
  · rw [if_pos hz]
    have hids : s.ids = [] := List.length_eq_zero.mp hz
    exact ⟨⟨hcb, hlen, hnd, fun _ => by simp [hids]⟩, rfl⟩
  · rw [if_neg hz]
    have hreset : WFP (reset s) := ⟨hcb, rfl, List.nodup_nil, fun _ => List.Pairwise.nil⟩
    exact reinsertAll_wfp preserve (s.ids.zip s.objs) (reset s) hreset

theorem recreate_true_perm [Inhabited T] (s : Store T) (hcb : s.compareCB = none)
    (hnd : s.ids.Nodup) (hlen : s.objs.length = s.ids.length) :
    List.Perm ((recreate s true).ids.zip (recreate s true).objs) (s.ids.zip s.objs) := by
  unfold recreate
  by_cases hz : s.ids.length = 0
  · rw [if_pos hz]
  · rw [if_neg hz]
    have hreset : WFP (reset s) := ⟨hcb, rfl, List.nodup_nil, fun _ => List.Pairwise.nil⟩
    have hfresh : ∀ p ∈ s.ids.zip s.objs, p.1 ∉ (reset s).ids := by
      intro p _ hmem
      exact absurd hmem (List.not_mem_nil _)
    have hndz : ((s.ids.zip s.objs).map Prod.fst).Nodup := by
      rw [List.map_fst_zip _ _ (le_of_eq hlen.symm)]
      exact hnd
    have hperm := reinsertAll_true_perm (s.ids.zip s.objs) (reset s) hreset hfresh hndz
    simpa using hperm

theorem setSorting_plain_spec [Inhabited T] (s : Store T) (srt' : sposSort) (h : WFP s) :
    (setSorting s srt').sorting = srt' ∧ WFP (setSorting s srt') ∧
    List.Perm ((setSorting s srt').ids.zip (setSorting s srt').objs) (s.ids.zip s.objs) := by
  unfold setSorting
  by_cases he : srt' = s.sorting
  · rw [if_pos he]
    exact ⟨he.symm, h, List.Perm.refl _⟩
  · rw [if_neg he]
    by_cases hn : srt' ≠ sposSort.None
    · rw [if_pos hn]
      have hrec := recreate_wfp { s with sorting := srt' } true h.cb_none h.nodup h.len_eq
      have hperm := recreate_true_perm { s with sorting := srt' } h.cb_none h.nodup h.len_eq
      exact ⟨hrec.2, hrec.1, hperm⟩
    · rw [if_neg hn]
      have hN : srt' = sposSort.None := not_not.mp hn
      refine ⟨rfl, ⟨h.cb_none, h.len_eq, h.nodup, fun hne => absurd hN hne⟩, List.Perm.refl _⟩

theorem mkStore_wfp (T : Type) (srt : sposSort) : WFP (mkStore T srt) :=
  ⟨rfl, rfl, List.nodup_nil, fun _ => List.Pairwise.nil⟩

theorem applyOp_plain_wfp [Inhabited T] {s : Store T} (h : WFP s) (op : SpOp T)
    (hop : isPlainOp op = true) : WFP (applyOp s op) := by
  cases op with
  | addW id v =>
    show WFP (addObjWithId s id v).2
    rw [addObjWithId_eq_setObjWithId h.cb_none]
    exact (setObjWithId_wfp h id v).1
  | addFrom v =>
    have hs := addObjFromArgs_plain_spec s v h.cb_none h.sorted h.nodup h.len_eq
    exact ⟨hs.2.2.1.1, hs.2.2.2.1, hs.2.2.2.2.1, hs.2.2.2.2.2⟩
  | setW id v => exact (setObjWithId_wfp h id v).1
  | getById id => exact wfp_of_index_change h (getObjById_state s id)
  | getFrom v => exact wfp_of_index_change h (getObjFromArgs_state s v)
  | getIdFrom v => exact wfp_of_index_change h (getIdFromArgs_state s v)
  | delById id =>
    have hs := deleteObjById_plain_spec s id h.cb_none h.sorted h.nodup h.len_eq
    exact ⟨hs.2.1.1, hs.2.2.1, hs.2.2.2.1, hs.2.2.2.2.1⟩
  | delFrom v =>
    show WFP (deleteObjFromArgs s v).2
    rw [deleteObjFromArgs_eq h.cb_none]
    have hs := deleteObjById_plain_spec s "" h.cb_none h.sorted h.nodup h.len_eq
    exact ⟨hs.2.1.1, hs.2.2.1, hs.2.2.2.1, hs.2.2.2.2.1⟩
  | rst => exact ⟨h.cb_none, rfl, List.nodup_nil, fun _ => List.Pairwise.nil⟩
  | setSort x => exact (setSorting_plain_spec s x h).2.1
  | setCmp cb => simp [isPlainOp] at hop
  | setCreate f =>
    show WFP (setCreateIdCallback s f)
    unfold setCreateIdCallback
    exact (recreate_wfp { s with createIdCB := some f } false h.cb_none h.nodup h.len_eq).1
  | setCapa n =>
    show WFP (setCapacityInc s n)
    unfold setCapacityInc
    split
    · exact ⟨h.cb_none, h.len_eq, h.nodup, h.sorted⟩
    · exact h
  | setSep sep =>
    show WFP (setIdSeparator s sep)
    unfold setIdSeparator
    split
    · exact ⟨h.cb_none, h.len_eq, h.nodup, h.sorted⟩
    · exact h
  | setDigits d =>
    show WFP (setIdNumDigits s d)
    unfold setIdNumDigits
    split
    · exact ⟨h.cb_none, h.len_eq, h.nodup, h.sorted⟩
    · exact h
  | setDecimals d =>
    show WFP (setIdNumDecimals s d)
    unfold setIdNumDecimals
    split
    · exact ⟨h.cb_none, h.len_eq, h.nodup, h.sorted⟩
    · exact h

theorem runOps_plain_wfp [Inhabited T] :
    ∀ (ops : List (SpOp T)) (s : Store T), WFP s →
      (∀ op ∈ ops, isPlainOp op = true) → WFP (runOps s ops)
  | [], _, h, _ => h
  | op :: rest, s, h, hall => by
    have h1 := applyOp_plain_wfp h op (hall op (List.mem_cons_self _ _))
    have h2 := runOps_plain_wfp rest (applyOp s op) h1
      (fun o ho => hall o (List.mem_cons_of_mem _ ho))
    simpa [runOps] using h2

/-! ## Length alignment for every operation, in every configuration -/

theorem setObjWithId_len [Inhabited T] (s : Store T) (id : String) (v : T)
    (h : s.objs.length = s.ids.length) :
    (setObjWithId s id v).2.objs.length = (setObjWithId s id v).2.ids.length := by
  have hb := indexOf_bounds s id (some v)
  have hst := indexOf_state s id (some v)
  unfold setObjWithId
  by_cases hr : (indexOf s id (some v)).1 = -1
  · rw [if_pos hr]
    dsimp only
    rw [hst]
    dsimp only
    rw [List.length_insertIdx _ _ hb.2.1, List.length_insertIdx _ _ (by omega)]
    omega
  · rw [if_neg hr]
    dsimp only
    rw [hst]
    dsimp only
    simpa using h

theorem addObjWithId_len [Inhabited T] (s : Store T) (id : String) (v : T)
    (h : s.objs.length = s.ids.length) :
    (addObjWithId s id v).2.objs.length = (addObjWithId s id v).2.ids.length := by
  have hb := indexOf_bounds s id (none : Option T)
  have hst := indexOf_state s id (none : Option T)
  unfold addObjWithId
  by_cases hr : (indexOf s id none).1 = -1
  · rw [if_pos hr]
    dsimp only
    rw [hst]
    dsimp only
    rw [List.length_insertIdx _ _ hb.2.1, List.length_insertIdx _ _ (by omega)]
    omega
  · rw [if_neg hr]
    dsimp only
    rw [hst]
    dsimp only
    simpa using h

theorem addObjFromArgs_len [Inhabited T] (s : Store T) (v : T)
    (h : s.objs.length = s.ids.length) :
    (addObjFromArgs s v).2.objs.length = (addObjFromArgs s v).2.ids.length := by
  obtain ⟨a, ha⟩ := createId_eq s v
  have hb := indexOf_bounds { s with autoId := a } (createId s v).1 (some v)
  have hst := indexOf_state { s with autoId := a } (createId s v).1 (some v)
  unfold addObjFromArgs
  dsimp only
  rw [ha]
  by_cases hr : (indexOf { s with autoId := a } (createId s v).1 (some v)).1 = -1
  · rw [if_pos hr]
    dsimp only
    rw [hst]
    dsimp only
    dsimp only at hb
    rw [List.length_insertIdx _ _ hb.2.1, List.length_insertIdx _ _ (by omega)]
    omega
  · rw [if_neg hr]
    dsimp only
    rw [hst]
    dsimp only
    exact h

theorem deleteObjById_len [Inhabited T] (s : Store T) (id : String)
    (h : s.objs.length = s.ids.length) :
    (deleteObjById s id).2.objs.length = (deleteObjById s id).2.ids.length := by
  have hb := indexOf_bounds s id (none : Option T)
  have hst := indexOf_state s id (none : Option T)
  unfold deleteObjById
  by_cases hr : (indexOf s id none).1 = -1
  · rw [if_pos hr]
    dsimp only
    rw [hst]
    dsimp only
    exact h
  · rw [if_neg hr]
    dsimp only
    rw [hst]
    dsimp only
    have hk := (hb.2.2 hr).1
    rw [List.length_eraseIdx, List.length_eraseIdx]
    simp only [hk, if_true]
    have : (indexOf s id none).2.index.toNat < s.objs.length := by omega
    simp only [this, if_true]
    omega

theorem deleteObjFromArgs_len [Inhabited T] (s : Store T) (v : T)
    (h : s.objs.length = s.ids.length) :
    (deleteObjFromArgs s v).2.objs.length = (deleteObjFromArgs s v).2.ids.length := by
  have hb := indexOf_bounds s "" (some v)
  have hst := indexOf_state s "" (some v)
  unfold deleteObjFromArgs
  by_cases hr : (indexOf s "" (some v)).1 = -1
  · rw [if_pos hr]
    dsimp only
    rw [hst]
    dsimp only
    exact h
  · rw [if_neg hr]
    dsimp only
    rw [hst]
    dsimp only
    have hk := (hb.2.2 hr).1
    rw [List.length_eraseIdx, List.length_eraseIdx]
    simp only [hk, if_true]
    have : (indexOf s "" (some v)).2.index.toNat < s.objs.length := by omega
    simp only [this, if_true]
    omega

theorem reinsertAll_len [Inhabited T] (preserve : Bool) :
    ∀ (ps : List (String × T)) (acc : Store T), acc.objs.length = acc.ids.length →
      (reinsertAll preserve acc ps).objs.length = (reinsertAll preserve acc ps).ids.length
  | [], _, h => h
  | p :: rest, acc, h => by
    unfold reinsertAll
    by_cases hp : preserve = true
    · rw [if_pos hp]
      exact reinsertAll_len preserve rest _ (setObjWithId_len acc p.1 p.2 h)
    · rw [if_neg hp]
      obtain ⟨a, ha⟩ := createId_eq acc p.2
      refine reinsertAll_len preserve rest _ ?_
      rw [ha]
      exact setObjWithId_len { acc with autoId := a } (createId acc p.2).1 p.2 h

theorem recreate_len [Inhabited T] (s : Store T) (preserve : Bool)
    (h : s.objs.length = s.ids.length) :
    (recreate s preserve).objs.length = (recreate s preserve).ids.length := by
  unfold recreate
  by_cases hz : s.ids.length = 0
  · rw [if_pos hz]
    exact h
  · rw [if_neg hz]
    exact reinsertAll_len preserve (s.ids.zip s.objs) (reset s) rfl

theorem applyOp_len [Inhabited T] (s : Store T) (op : SpOp T)
    (h : s.objs.length = s.ids.length) :
    (applyOp s op).objs.length = (applyOp s op).ids.length := by
  cases op with
  | addW id v => exact addObjWithId_len s id v h
  | addFrom v => exact addObjFromArgs_len s v h
  | setW id v => exact setObjWithId_len s id v h
  | getById id =>
    show (getObjById s id).2.objs.length = (getObjById s id).2.ids.length
    rw [getObjById_state s id]
    exact h
  | getFrom v =>
    show (getObjFromArgs s v).2.objs.length = (getObjFromArgs s v).2.ids.length
    rw [getObjFromArgs_state s v]
    exact h
  | getIdFrom v =>
    show (getIdFromArgs s v).2.objs.length = (getIdFromArgs s v).2.ids.length
    rw [getIdFromArgs_state s v]
    exact h
  | delById id => exact deleteObjById_len s id h
  | delFrom v => exact deleteObjFromArgs_len s v h
  | rst => rfl
  | setSort x =>
    show (setSorting s x).objs.length = (setSorting s x).ids.length
    unfold setSorting
    by_cases he : x = s.sorting
    · rw [if_pos he]
      exact h
    · rw [if_neg he]
      by_cases hn : x ≠ sposSort.None
      · rw [if_pos hn]
        exact recreate_len { s with sorting := x } true h
      · rw [if_neg hn]
        exact h
  | setCmp cb =>
    show (setCompareCallback s cb).objs.length = (setCompareCallback s cb).ids.length
    unfold setCompareCallback
    exact recreate_len { s with compareCB := some cb } true h
  | setCreate f =>
    show (setCreateIdCallback s f).objs.length = (setCreateIdCallback s f).ids.length
    unfold setCreateIdCallback
    exact recreate_len { s with createIdCB := some f } false h
  | setCapa n =>
    show (setCapacityInc s n).objs.length = (setCapacityInc s n).ids.length
    unfold setCapacityInc
    split
    · exact h
    · exact h
  | setSep sep =>
    show (setIdSeparator s sep).objs.length = (setIdSeparator s sep).ids.length
    unfold setIdSeparator
    split
    · exact h
    · exact h
  | setDigits d =>
    show (setIdNumDigits s d).objs.length = (setIdNumDigits s d).ids.length
    unfold setIdNumDigits
    split
    · exact h
    · exact h
  | setDecimals d =>
    show (setIdNumDecimals s d).objs.length = (setIdNumDecimals s d).ids.length
    unfold setIdNumDecimals
    split
    · exact h
    · exact h

theorem runOps_len [Inhabited T] :
    ∀ (ops : List (SpOp T)) (s : Store T), s.objs.length = s.ids.length →
      (runOps s ops).objs.length = (runOps s ops).ids.length
  | [], _, h => h
  | op :: rest, s, h => by
    have h2 := runOps_len rest (applyOp s op) (applyOp_len s op h)
    simpa [runOps] using h2

/-! ## The `_added` flag -/

theorem addObjWithId_added_iff [Inhabited T] (s : Store T) (id : String) (v : T) :
    (addObjWithId s id v).2.added = true ↔
      (addObjWithId s id v).2.ids.length = s.ids.length + 1 := by
  have hb := indexOf_bounds s id (none : Option T)
  have hst := indexOf_state s id (none : Option T)
  unfold addObjWithId
  by_cases hr : (indexOf s id none).1 = -1
  · rw [if_pos hr]
    dsimp only
    rw [hst]
    dsimp only
    rw [List.length_insertIdx _ _ hb.2.1]
    simp
  · rw [if_neg hr]
    dsimp only
    rw [hst]
    dsimp only
    simp

theorem setObjWithId_added_iff [Inhabited T] (s : Store T) (id : String) (v : T) :
    (setObjWithId s id v).2.added = true ↔
      (setObjWithId s id v).2.ids.length = s.ids.length + 1 := by
  have hb := indexOf_bounds s id (some v)
  have hst := indexOf_state s id (some v)
  unfold setObjWithId
  by_cases hr : (indexOf s id (some v)).1 = -1
  · rw [if_pos hr]
    dsimp only
    rw [hst]
    dsimp only
    rw [List.length_insertIdx _ _ hb.2.1]
    simp
  · rw [if_neg hr]
    dsimp only
    rw [hst]
    dsimp only
    simp

theorem addObjFromArgs_added [Inhabited T] (s : Store T) (v : T) :
    ((addObjFromArgs s v).1.isSome = true →
      (addObjFromArgs s v).2.added = true ∧
      (addObjFromArgs s v).2.ids.length = s.ids.length + 1) ∧
    ((addObjFromArgs s v).1 = none →
      (addObjFromArgs s v).2.added = s.added ∧ (addObjFromArgs s v).2.ids = s.ids) := by
  obtain ⟨a, ha⟩ := createId_eq s v
  have hb := indexOf_bounds { s with autoId := a } (createId s v).1 (some v)
  have hst := indexOf_state { s with autoId := a } (createId s v).1 (some v)
  dsimp only at hb
  unfold addObjFromArgs
  dsimp only
  rw [ha]
  by_cases hr : (indexOf { s with autoId := a } (createId s v).1 (some v)).1 = -1
  · rw [if_pos hr]
    dsimp only
    rw [hst]
    dsimp only
    refine ⟨fun _ => ⟨rfl, ?_⟩, fun habs => by simp at habs⟩
    rw [List.length_insertIdx _ _ hb.2.1]
  · rw [if_neg hr]
    dsimp only
    rw [hst]
    dsimp only
    exact ⟨fun habs => by simp at habs, fun _ => ⟨rfl, rfl⟩⟩

theorem getObjById_added [Inhabited T] (s : Store T) (id : String) :
    (getObjById s id).2.added = s.added := by
  have := congrArg Store.added (getObjById_state s id)
  simpa using this

theorem getObjFromArgs_added [Inhabited T] (s : Store T) (v : T) :
    (getObjFromArgs s v).2.added = s.added := by
  have := congrArg Store.added (getObjFromArgs_state s v)
  simpa using this

/-! ## Unordered stores keep insertion order -/

theorem isSorted_false_of_plain {T : Type} {s : Store T} (hsort : s.sorting = sposSort.None)
    (hcb : s.compareCB = none) : isSorted s = false := by
  unfold isSorted
  rw [hcb, hsort]
  rfl

theorem indexOf_unsorted_mem [Inhabited T] (s : Store T) (id : String) (obj : Option T)
    (hsort : s.sorting = sposSort.None) (hcb : s.compareCB = none) :
    ((indexOf s id obj).1 = -1 → id ∉ s.ids ∧
      (indexOf s id obj).2.index = (s.ids.length : Int)) ∧
    ((indexOf s id obj).1 ≠ -1 → id ∈ s.ids) := by
  unfold indexOf
  by_cases h1 : -1 < s.index ∧ s.index < (s.ids.length : Int) ∧ s.ids.getD s.index.toNat "" = id
  · rw [if_pos h1]
    dsimp only
    obtain ⟨ha, hb, hc⟩ := h1
    have hk : s.index.toNat < s.ids.length := by omega
    have hgot : s.ids.get ⟨s.index.toNat, hk⟩ = id := by
      rw [← list_getD_eq_get s.ids "" _ hk]
      exact hc
    refine ⟨fun habs => absurd habs (by omega), fun _ => ?_⟩
    rw [← hgot]
    exact List.get_mem _ _ _
  · rw [if_neg h1, isSorted_false_of_plain hsort hcb]
    rw [if_neg (by simp)]
    cases hfind : linFind s.ids id 0 with
    | some k =>
      obtain ⟨i, hi, hki, hgi⟩ := linFind_eq_some s.ids id 0 k hfind
      dsimp only
      refine ⟨fun habs => absurd habs (by omega), fun _ => ?_⟩
      rw [← hgi]
      exact List.get_mem _ _ _
    | none =>
      dsimp only
      exact ⟨fun _ => ⟨(linFind_eq_none s.ids id 0).mp hfind, rfl⟩, fun habs => absurd rfl habs⟩

theorem setObjWithId_unsorted_spec [Inhabited T] (s : Store T) (id : String) (v : T)
    (hsort : s.sorting = sposSort.None) (hcb : s.compareCB = none) :
    (setObjWithId s id v).2.ids = pushIfNew s.ids id ∧
    (setObjWithId s id v).2.autoId = s.autoId ∧
    (setObjWithId s id v).2.sorting = sposSort.None ∧
    (setObjWithId s id v).2.compareCB = none ∧
    (setObjWithId s id v).2.createIdCB = s.createIdCB := by
  have hmem := indexOf_unsorted_mem s id (some v) hsort hcb
  have hst := indexOf_state s id (some v)
  unfold setObjWithId
  by_cases hr : (indexOf s id (some v)).1 = -1
  · rw [if_pos hr]
    dsimp only
    obtain ⟨hni, hix⟩ := hmem.1 hr
    rw [hst, hix]
    dsimp only
    simp only [Int.toNat_natCast]
    refine ⟨?_, by trivial, hsort, hcb, by trivial⟩
    rw [List.insertIdx_length_self]
    unfold pushIfNew
    rw [if_neg hni]
  · rw [if_neg hr]
    dsimp only
    rw [hst]
    dsimp only
    refine ⟨?_, by trivial, hsort, hcb, by trivial⟩
    unfold pushIfNew
    rw [if_pos (hmem.2 hr)]

theorem addObjFromArgs_unsorted_spec [Inhabited T] (s : Store T) (v : T)
    (hsort : s.sorting = sposSort.None) (hcb : s.compareCB = none)
    (hcid : s.createIdCB = none) :
    (addObjFromArgs s v).2.ids = pushIfNew s.ids (stringifyU s.autoId) ∧
    (addObjFromArgs s v).2.autoId = (s.autoId + 1) % 4294967296 ∧
    (addObjFromArgs s v).2.sorting = sposSort.None ∧
    (addObjFromArgs s v).2.compareCB = none ∧
    (addObjFromArgs s v).2.createIdCB = none := by
  have hcv : createId s v = (stringifyU s.autoId,
      { s with autoId := (s.autoId + 1) % 4294967296 }) := by
    unfold createId
    rw [hcid]
  have hmem := indexOf_unsorted_mem { s with autoId := (s.autoId + 1) % 4294967296 }
    (stringifyU s.autoId) (some v) hsort hcb
  have hst := indexOf_state { s with autoId := (s.autoId + 1) % 4294967296 }
    (stringifyU s.autoId) (some v)
  unfold addObjFromArgs
  rw [hcv]
  dsimp only
  by_cases hr : (indexOf { s with autoId := (s.autoId + 1) % 4294967296 }
      (stringifyU s.autoId) (some v)).1 = -1
  · rw [if_pos hr]
    dsimp only
    obtain ⟨hni, hix⟩ := hmem.1 hr
    dsimp only at hix
    rw [hst, hix]
    dsimp only
    simp only [Int.toNat_natCast]
    refine ⟨?_, by trivial, hsort, hcb, hcid⟩
    rw [List.insertIdx_length_self]
    unfold pushIfNew
    rw [if_neg hni]
  · rw [if_neg hr]
    dsimp only
    rw [hst]
    dsimp only
    refine ⟨?_, by trivial, hsort, hcb, hcid⟩
    unfold pushIfNew
    rw [if_pos (hmem.2 hr)]

theorem runOps_ins_unsorted [Inhabited T] :
    ∀ (ops : List (SpOp T)) (s : Store T),
      s.sorting = sposSort.None → s.compareCB = none → s.createIdCB = none →
      (∀ op ∈ ops, isInsertOp op = true) →
      (runOps s ops).ids = specInsIds s.ids s.autoId ops
  | [], _, _, _, _, _ => rfl
  | op :: rest, s, h1, h2, h3, hall => by
    have hrest : ∀ op ∈ rest, isInsertOp op = true :=
      fun o ho => hall o (List.mem_cons_of_mem _ ho)
    cases op with
    | addW id v =>
      have heq := addObjWithId_eq_setObjWithId h2 id v
      obtain ⟨hids, hauto, hs', hc', hcid'⟩ := setObjWithId_unsorted_spec s id v h1 h2
      have hrec := runOps_ins_unsorted rest (setObjWithId s id v).2 hs' hc'
        (by rw [hcid']; exact h3) hrest
      show (runOps (addObjWithId s id v).2 rest).ids = _
      rw [heq, hrec, hids, hauto]
      rfl
    | setW id v =>
      obtain ⟨hids, hauto, hs', hc', hcid'⟩ := setObjWithId_unsorted_spec s id v h1 h2
      have hrec := runOps_ins_unsorted rest (setObjWithId s id v).2 hs' hc'
        (by rw [hcid']; exact h3) hrest
      show (runOps (setObjWithId s id v).2 rest).ids = _
      rw [hrec, hids, hauto]
      rfl
    | addFrom v =>
      obtain ⟨hids, hauto, hs', hc', hcid'⟩ := addObjFromArgs_unsorted_spec s v h1 h2 h3
      have hrec := runOps_ins_unsorted rest (addObjFromArgs s v).2 hs' hc' hcid' hrest
      show (runOps (addObjFromArgs s v).2 rest).ids = _
      rw [hrec, hids, hauto]
      rfl
    | getById id => simp [isInsertOp] at hall
    | getFrom v => simp [isInsertOp] at hall
    | getIdFrom v => simp [isInsertOp] at hall
    | delById id => simp [isInsertOp] at hall
    | delFrom v => simp [isInsertOp] at hall
    | rst => simp [isInsertOp] at hall
    | setSort x => simp [isInsertOp] at hall
    | setCmp cb => simp [isInsertOp] at hall
    | setCreate f => simp [isInsertOp] at hall
    | setCapa n => simp [isInsertOp] at hall
    | setSep sep => simp [isInsertOp] at hall
    | setDigits d => simp [isInsertOp] at hall
    | setDecimals d => simp [isInsertOp] at hall

theorem forEachVisited_all {T : Type} :
    ∀ (ids : List String) (objs : List T),
      forEachVisited ids objs (fun _ _ => true) = ids.zip objs
  | [], _ => rfl
  | _ :: _, [] => rfl
  | i :: is, o :: os => by
    show (i, o) :: forEachVisited is os (fun _ _ => true) = _
    rw [forEachVisited_all is os]
    rfl

/-! ## Comparator-sorted stores: the (object, id) lexicographic order -/

theorem lawful_zero_symm {T : Type} {cb : T → T → Int} (hlaw : lawfulCmp cb) {a b : T}
    (h : cb a b = 0) : cb b a = 0 := by
  obtain ⟨law1, _, _⟩ := hlaw
  have h1 := law1 a b
  have h2 := law1 b a
  omega

theorem valIdLt_trans {T : Type} {cb : T → T → Int} (hlaw : lawfulCmp cb) {p q r : T × String}
    (h1 : valIdLt cb p q) (h2 : valIdLt cb q r) : valIdLt cb p r := by
  obtain ⟨law1, law2, law3⟩ := hlaw
  rcases h1 with h1 | ⟨h1z, h1s⟩
  · rcases h2 with h2 | ⟨h2z, h2s⟩
    · exact Or.inl (law2 _ _ _ h1 h2)
    · refine Or.inl ?_
      have e1 : cb q.1 p.1 = cb r.1 p.1 := law3 _ _ _ h2z
      have e2 := law1 p.1 q.1
      have e3 := law1 p.1 r.1
      omega
  · rcases h2 with h2 | ⟨h2z, h2s⟩
    · refine Or.inl ?_
      have e1 : cb p.1 r.1 = cb q.1 r.1 := law3 _ _ _ h1z
      omega
    · refine Or.inr ⟨?_, strcmp_trans_neg _ _ _ h1s h2s⟩
      have e1 : cb p.1 r.1 = cb q.1 r.1 := law3 _ _ _ h1z
      omega

theorem compareIds_None (a b : String) : compareIds sposSort.None a b = strcmp a b := by
  unfold compareIds
  simp

theorem setObjWithId_lex_spec [Inhabited T] (cb : T → T → Int) (hlaw : lawfulCmp cb)
    (s : Store T) (id : String) (v : T)
    (hcb : s.compareCB = some cb) (hsort : s.sorting = sposSort.None)
    (hlen : s.objs.length = s.ids.length)
    (hpw : (s.objs.zip s.ids).Pairwise (valIdLt cb))
    (hid : 0 < id.length) (hfresh : id ∉ s.ids) :
    ∃ ip : Nat, ip ≤ s.ids.length ∧
      (setObjWithId s id v).2.ids = s.ids.insertIdx ip id ∧
      (setObjWithId s id v).2.objs = s.objs.insertIdx ip v ∧
      (setObjWithId s id v).2.compareCB = some cb ∧
      (setObjWithId s id v).2.sorting = sposSort.None ∧
      ((setObjWithId s id v).2.objs.zip (setObjWithId s id v).2.ids).Pairwise (valIdLt cb) := by
  -- the comparison function evaluated by the binary search
  have hcfun : ∀ k, indexOfCmp s id (some v) k =
      (if cb (s.objs.getD k default) v = 0 ∧ 0 < id.length
       then strcmp (s.ids.getD k "") id else cb (s.objs.getD k default) v) := by
    intro k
    unfold indexOfCmp
    rw [hcb, hsort]
    simp only [compareIds_None]
  have hmemD : ∀ k, k < s.ids.length → s.ids.getD k "" ∈ s.ids := by
    intro k hk
    rw [list_getD_eq_get s.ids "" k hk]
    exact List.get_mem _ _ _
  have hneg_iff : ∀ k, indexOfCmp s id (some v) k < 0 ↔
      valIdLt cb (s.objs.getD k default, s.ids.getD k "") (v, id) := by
    intro k
    rw [hcfun k]
    by_cases hz : cb (s.objs.getD k default) v = 0
    · rw [if_pos ⟨hz, hid⟩]
      unfold valIdLt
      dsimp only
      constructor
      · intro h
        exact Or.inr ⟨hz, h⟩
      · intro h
        rcases h with h | ⟨_, h⟩
        · omega
        · exact h
    · rw [if_neg (fun hc => hz hc.1)]
      unfold valIdLt
      dsimp only
      constructor
      · intro h
        exact Or.inl h
      · intro h
        rcases h with h | ⟨hz', _⟩
        · exact h
        · exact absurd hz' hz
  have hpos_iff : ∀ k, 0 < indexOfCmp s id (some v) k ↔
      valIdLt cb (v, id) (s.objs.getD k default, s.ids.getD k "") := by
    intro k
    rw [hcfun k]
    by_cases hz : cb (s.objs.getD k default) v = 0
    · rw [if_pos ⟨hz, hid⟩]
      unfold valIdLt
      dsimp only
      have hzs := lawful_zero_symm hlaw hz
      have hsw := strcmp_swap (s.ids.getD k "") id
      constructor
      · intro h
        exact Or.inr ⟨hzs, by omega⟩
      · intro h
        rcases h with h | ⟨_, h⟩
        · omega
        · omega
    · rw [if_neg (fun hc => hz hc.1)]
      unfold valIdLt
      dsimp only
      have hl1 := hlaw.1 v (s.objs.getD k default)
      constructor
      · intro h
        exact Or.inl (by omega)
      · intro h
        rcases h with h | ⟨hz', _⟩
        · omega
        · exact absurd (lawful_zero_symm hlaw hz') hz
  have hzero_imp : ∀ k, indexOfCmp s id (some v) k = 0 → s.ids.getD k "" = id := by
    intro k h
    rw [hcfun k] at h
    by_cases hz : cb (s.objs.getD k default) v = 0
    · rw [if_pos ⟨hz, hid⟩] at h
      exact (strcmp_eq_zero_iff _ _).mp h
    · rw [if_neg (fun hc => hz hc.1)] at h
      exact absurd h hz
  have hnz : ∀ k, k < s.ids.length → indexOfCmp s id (some v) k ≠ 0 := by
    intro k hk h
    exact hfresh (hzero_imp k h ▸ hmemD k hk)
  -- pairwise order of the stored pairs, in index form
  have hpair : ∀ i j, i < j → j < s.ids.length →
      valIdLt cb (s.objs.getD i default, s.ids.getD i "")
        (s.objs.getD j default, s.ids.getD j "") := by
    intro i j hij hj
    have hi : i < s.ids.length := by omega
    have hzl : (s.objs.zip s.ids).length = s.ids.length := by
      rw [List.length_zip]
      omega
    have hg := (List.pairwise_iff_get).mp hpw ⟨i, by omega⟩ ⟨j, by omega⟩ hij
    have hgi : (s.objs.zip s.ids).get ⟨i, by omega⟩ =
        (s.objs.getD i default, s.ids.getD i "") := by
      simp only [List.get_eq_getElem, List.getElem_zip]
      rw [list_getD_eq_get s.objs default i (by omega), list_getD_eq_get s.ids "" i hi]
      simp [List.get_eq_getElem]
    have hgj : (s.objs.zip s.ids).get ⟨j, by omega⟩ =
        (s.objs.getD j default, s.ids.getD j "") := by
      simp only [List.get_eq_getElem, List.getElem_zip]
      rw [list_getD_eq_get s.objs default j (by omega), list_getD_eq_get s.ids "" j hj]
      simp [List.get_eq_getElem]
    rw [hgi, hgj] at hg
    exact hg
  have mononeg : ∀ i j, i ≤ j → j < s.ids.length →
      indexOfCmp s id (some v) j < 0 → indexOfCmp s id (some v) i < 0 := by
    intro i j hij hj hcj
    rcases Nat.eq_or_lt_of_le hij with rfl | hlt
    · exact hcj
    · rw [hneg_iff] at hcj ⊢
      exact valIdLt_trans hlaw (hpair i j hlt hj) hcj
  have monopos : ∀ i j, i ≤ j → j < s.ids.length →
      0 < indexOfCmp s id (some v) i → 0 < indexOfCmp s id (some v) j := by
    intro i j hij hj hci
    rcases Nat.eq_or_lt_of_le hij with rfl | hlt
    · exact hci
    · rw [hpos_iff] at hci ⊢
      exact valIdLt_trans hlaw hci (hpair i j hlt hj)
  -- the probe runs the sorted branch and misses
  have hfast : ¬ (-1 < s.index ∧ s.index < (s.ids.length : Int) ∧
      s.ids.getD s.index.toNat "" = id) := by
    rintro ⟨ha, hb, hc⟩
    exact hfresh (hc ▸ hmemD s.index.toNat (by omega))
  have hsorted : isSorted s = true := by
    unfold isSorted
    rw [hcb]
    simp
  have hspec := lbAux_spec (indexOfCmp s id (some v)) s.ids.length mononeg monopos
    s.ids.length 0 s.ids.length le_rfl (by omega) (by intro i hi; omega)
    (by intro i hi hin; omega)
  rcases hspec with ⟨k, _, _, hk, hck⟩ | ⟨hr1, ip, hr2, hip, hlo, hhi⟩
  · exact absurd hck (hnz k hk)
  · have hrindex : (indexOf s id (some v)).1 = -1 ∧
        (indexOf s id (some v)).2 = { s with index := (ip : Int) } := by
      unfold indexOf
      rw [if_neg hfast, if_pos hsorted]
      dsimp only
      rw [hr1, hr2]
      exact ⟨rfl, rfl⟩
    refine ⟨ip, hip, ?_⟩
    unfold setObjWithId
    dsimp only
    rw [hrindex.2, if_pos hrindex.1]
    dsimp only
    simp only [Int.toNat_natCast]
    refine ⟨by trivial, by trivial, hcb, hsort, ?_⟩
    have hipo : ip ≤ s.objs.length := by omega
    rw [zip_insertIdx ip s.objs s.ids v id hlen hipo]
    refine pairwise_insertIdx (by rw [List.length_zip]; omega) hpw ?_ ?_
    · intro x hx
      obtain ⟨i, hzi, hik, hgx⟩ := mem_take_imp hx
      have hi : i < s.ids.length := by
        have := List.length_zip s.objs s.ids
        omega
      have hxeq : x = (s.objs.getD i default, s.ids.getD i "") := by
        rw [← hgx]
        simp only [List.get_eq_getElem, List.getElem_zip]
        rw [list_getD_eq_get s.objs default i (by omega), list_getD_eq_get s.ids "" i hi]
        simp [List.get_eq_getElem]
      rw [hxeq]
      rw [← hneg_iff]
      exact hlo i hik
    · intro x hx
      obtain ⟨i, hzi, hik, hgx⟩ := mem_drop_imp hx
      have hi : i < s.ids.length := by
        have := List.length_zip s.objs s.ids
        omega
      have hxeq : x = (s.objs.getD i default, s.ids.getD i "") := by
        rw [← hgx]
        simp only [List.get_eq_getElem, List.getElem_zip]
        rw [list_getD_eq_get s.objs default i (by omega), list_getD_eq_get s.ids "" i hi]
        simp [List.get_eq_getElem]
      rw [hxeq]
      rw [← hpos_iff]
      exact hhi i hik hi

theorem setW_lex_fold [Inhabited T] (cb : T → T → Int) (hlaw : lawfulCmp cb) :
    ∀ (ps : List (String × T)) (s : Store T),
      s.compareCB = some cb → s.sorting = sposSort.None →
      s.objs.length = s.ids.length → (s.objs.zip s.ids).Pairwise (valIdLt cb) →
      (∀ p ∈ ps, 0 < p.1.length) → (∀ p ∈ ps, p.1 ∉ s.ids) → (ps.map Prod.fst).Nodup →
      ((ps.foldl (fun acc p => (setObjWithId acc p.1 p.2).2) s).objs.length =
        (ps.foldl (fun acc p => (setObjWithId acc p.1 p.2).2) s).ids.length ∧
       ((ps.foldl (fun acc p => (setObjWithId acc p.1 p.2).2) s).objs.zip
        (ps.foldl (fun acc p => (setObjWithId acc p.1 p.2).2) s).ids).Pairwise (valIdLt cb))
  | [], s, _, _, hlen, hpw, _, _, _ => ⟨hlen, hpw⟩
  | p :: rest, s, hcb, hsort, hlen, hpw, hids, hfresh, hnd => by
    obtain ⟨ip, hip, hids', hobjs', hcb', hsort', hpw'⟩ :=
      setObjWithId_lex_spec cb hlaw s p.1 p.2 hcb hsort hlen hpw
        (hids p (List.mem_cons_self _ _)) (hfresh p (List.mem_cons_self _ _))
    have hndc := List.nodup_cons.mp (show (p.1 :: rest.map Prod.fst).Nodup by
      rw [← List.map_cons]; exact hnd)
    have hlen' : (setObjWithId s p.1 p.2).2.objs.length =
        (setObjWithId s p.1 p.2).2.ids.length := by
      rw [hids', hobjs', List.length_insertIdx _ _ hip,
        List.length_insertIdx _ _ (by omega)]
      omega
    have hfresh' : ∀ q ∈ rest, q.1 ∉ (setObjWithId s p.1 p.2).2.ids := by
      intro q hq hqmem
      rw [hids'] at hqmem
      rcases (mem_insertIdx_iff hip).mp hqmem with heq | hmem'
      · have hmm : q.1 ∈ rest.map Prod.fst := List.mem_map_of_mem _ hq
        rw [heq] at hmm
        exact hndc.1 hmm
      · exact hfresh q (List.mem_cons_of_mem _ hq) hmem'
    have hrec := setW_lex_fold cb hlaw rest (setObjWithId s p.1 p.2).2 hcb' hsort' hlen' hpw'
      (fun q hq => hids q (List.mem_cons_of_mem _ hq)) hfresh' hndc.2
    simpa using hrec

theorem valIdLtS_trans {T : Type} {cb : T → T → Int} {srt : sposSort} (hlaw : lawfulCmp cb)
    {p q r : T × String} (h1 : valIdLtS cb srt p q) (h2 : valIdLtS cb srt q r) :
    valIdLtS cb srt p r := by
  obtain ⟨law1, law2, law3⟩ := hlaw
  rcases h1 with h1 | ⟨h1z, h1s⟩
  · rcases h2 with h2 | ⟨h2z, h2s⟩
    · exact Or.inl (law2 _ _ _ h1 h2)
    · refine Or.inl ?_
      have e1 : cb q.1 p.1 = cb r.1 p.1 := law3 _ _ _ h2z
      have e2 := law1 p.1 q.1
      have e3 := law1 p.1 r.1
      omega
  · rcases h2 with h2 | ⟨h2z, h2s⟩
    · refine Or.inl ?_
      have e1 : cb p.1 r.1 = cb q.1 r.1 := law3 _ _ _ h1z
      omega
    · refine Or.inr ⟨?_, idLt_trans h1s h2s⟩
      have e1 : cb p.1 r.1 = cb q.1 r.1 := law3 _ _ _ h1z
      omega

theorem natCmp_lawful : lawfulCmp natCmp := by
  refine ⟨fun a b => ?_, fun a b c h1 h2 => ?_, fun a b c h => ?_⟩
  · unfold natCmp
    split_ifs <;> omega
  · unfold natCmp at h1 h2 ⊢
    split_ifs at h1 h2 ⊢ <;> omega
  · have hab : a = b := by
      unfold natCmp at h
      split_ifs at h <;> omega
    rw [hab]

theorem setObjWithId_lexS_spec [Inhabited T] (cb : T → T → Int) (hlaw : lawfulCmp cb)
    (srt : sposSort) (s : Store T) (id : String) (v : T)
    (hcb : s.compareCB = some cb) (hsort : s.sorting = srt)
    (hlen : s.objs.length = s.ids.length)
    (hpw : (s.objs.zip s.ids).Pairwise (valIdLtS cb srt))
    (hid : 0 < id.length) (hfresh : id ∉ s.ids) :
    ∃ ip : Nat, ip ≤ s.ids.length ∧
      (setObjWithId s id v).2.ids = s.ids.insertIdx ip id ∧
      (setObjWithId s id v).2.objs = s.objs.insertIdx ip v ∧
      (setObjWithId s id v).2.compareCB = some cb ∧
      (setObjWithId s id v).2.sorting = srt ∧
      ((setObjWithId s id v).2.objs.zip (setObjWithId s id v).2.ids).Pairwise
        (valIdLtS cb srt) := by
  -- the comparison function evaluated by the binary search
  have hcfun : ∀ k, indexOfCmp s id (some v) k =
      (if cb (s.objs.getD k default) v = 0 ∧ 0 < id.length
       then compareIds srt (s.ids.getD k "") id else cb (s.objs.getD k default) v) := by
    intro k
    unfold indexOfCmp
    rw [hcb, hsort]
  have hmemD : ∀ k, k < s.ids.length → s.ids.getD k "" ∈ s.ids := by
    intro k hk
    rw [list_getD_eq_get s.ids "" k hk]
    exact List.get_mem _ _ _
  have hneg_iff : ∀ k, indexOfCmp s id (some v) k < 0 ↔
      valIdLtS cb srt (s.objs.getD k default, s.ids.getD k "") (v, id) := by
    intro k
    rw [hcfun k]
    by_cases hz : cb (s.objs.getD k default) v = 0
    · rw [if_pos ⟨hz, hid⟩]
      unfold valIdLtS
      dsimp only
      constructor
      · intro h
        exact Or.inr ⟨hz, h⟩
      · intro h
        rcases h with h | ⟨_, h⟩
        · omega
        · exact h
    · rw [if_neg (fun hc => hz hc.1)]
      unfold valIdLtS
      dsimp only
      constructor
      · intro h
        exact Or.inl h
      · intro h
        rcases h with h | ⟨hz', _⟩
        · exact h
        · exact absurd hz' hz
  have hpos_iff : ∀ k, 0 < indexOfCmp s id (some v) k ↔
      valIdLtS cb srt (v, id) (s.objs.getD k default, s.ids.getD k "") := by
    intro k
    rw [hcfun k]
    by_cases hz : cb (s.objs.getD k default) v = 0
    · rw [if_pos ⟨hz, hid⟩]
      unfold valIdLtS
      dsimp only
      have hzs := lawful_zero_symm hlaw hz
      have hsw := compareIds_swap srt (s.ids.getD k "") id
      constructor
      · intro h
        exact Or.inr ⟨hzs, by omega⟩
      · intro h
        rcases h with h | ⟨_, h⟩
        · omega
        · omega
    · rw [if_neg (fun hc => hz hc.1)]
      unfold valIdLtS
      dsimp only
      have hl1 := hlaw.1 v (s.objs.getD k default)
      constructor
      · intro h
        exact Or.inl (by omega)
      · intro h
        rcases h with h | ⟨hz', _⟩
        · omega
        · exact absurd (lawful_zero_symm hlaw hz') hz
  have hzero_imp : ∀ k, indexOfCmp s id (some v) k = 0 → s.ids.getD k "" = id := by
    intro k h
    rw [hcfun k] at h
    by_cases hz : cb (s.objs.getD k default) v = 0
    · rw [if_pos ⟨hz, hid⟩] at h
      exact (compareIds_eq_zero_iff srt _ _).mp h
    · rw [if_neg (fun hc => hz hc.1)] at h
      exact absurd h hz
  have hnz : ∀ k, k < s.ids.length → indexOfCmp s id (some v) k ≠ 0 := by
    intro k hk h
    exact hfresh (hzero_imp k h ▸ hmemD k hk)
  -- pairwise order of the stored pairs, in index form
  have hpair : ∀ i j, i < j → j < s.ids.length →
      valIdLtS cb srt (s.objs.getD i default, s.ids.getD i "")
        (s.objs.getD j default, s.ids.getD j "") := by
    intro i j hij hj
    have hi : i < s.ids.length := by omega
    have hzl : (s.objs.zip s.ids).length = s.ids.length := by
      rw [List.length_zip]
      omega
    have hg := (List.pairwise_iff_get).mp hpw ⟨i, by omega⟩ ⟨j, by omega⟩ hij
    have hgi : (s.objs.zip s.ids).get ⟨i, by omega⟩ =
        (s.objs.getD i default, s.ids.getD i "") := by
      simp only [List.get_eq_getElem, List.getElem_zip]
      rw [list_getD_eq_get s.objs default i (by omega), list_getD_eq_get s.ids "" i hi]
      simp [List.get_eq_getElem]
    have hgj : (s.objs.zip s.ids).get ⟨j, by omega⟩ =
        (s.objs.getD j default, s.ids.getD j "") := by
      simp only [List.get_eq_getElem, List.getElem_zip]
      rw [list_getD_eq_get s.objs default j (by omega), list_getD_eq_get s.ids "" j hj]
      simp [List.get_eq_getElem]
    rw [hgi, hgj] at hg
    exact hg
  have mononeg : ∀ i j, i ≤ j → j < s.ids.length →
      indexOfCmp s id (some v) j < 0 → indexOfCmp s id (some v) i < 0 := by
    intro i j hij hj hcj
    rcases Nat.eq_or_lt_of_le hij with rfl | hlt
    · exact hcj
    · rw [hneg_iff] at hcj ⊢
      exact valIdLtS_trans hlaw (hpair i j hlt hj) hcj
  have monopos : ∀ i j, i ≤ j → j < s.ids.length →
      0 < indexOfCmp s id (some v) i → 0 < indexOfCmp s id (some v) j := by
    intro i j hij hj hci
    rcases Nat.eq_or_lt_of_le hij with rfl | hlt
    · exact hci
    · rw [hpos_iff] at hci ⊢
      exact valIdLtS_trans hlaw hci (hpair i j hlt hj)
  -- the probe runs the sorted branch and misses
  have hfast : ¬ (-1 < s.index ∧ s.index < (s.ids.length : Int) ∧
      s.ids.getD s.index.toNat "" = id) := by
    rintro ⟨ha, hb, hc⟩
    exact hfresh (hc ▸ hmemD s.index.toNat (by omega))
  have hsorted : isSorted s = true := by
    unfold isSorted
    rw [hcb]
    simp
  have hspec := lbAux_spec (indexOfCmp s id (some v)) s.ids.length mononeg monopos
    s.ids.length 0 s.ids.length le_rfl (by omega) (by intro i hi; omega)
    (by intro i hi hin; omega)
  rcases hspec with ⟨k, _, _, hk, hck⟩ | ⟨hr1, ip, hr2, hip, hlo, hhi⟩
  · exact absurd hck (hnz k hk)
  · have hrindex : (indexOf s id (some v)).1 = -1 ∧
        (indexOf s id (some v)).2 = { s with index := (ip : Int) } := by
      unfold indexOf
      rw [if_neg hfast, if_pos hsorted]
      dsimp only
      rw [hr1, hr2]
      exact ⟨rfl, rfl⟩
    refine ⟨ip, hip, ?_⟩
    unfold setObjWithId
    dsimp only
    rw [hrindex.2, if_pos hrindex.1]
    dsimp only
    simp only [Int.toNat_natCast]
    refine ⟨by trivial, by trivial, hcb, hsort, ?_⟩
    have hipo : ip ≤ s.objs.length := by omega
    rw [zip_insertIdx ip s.objs s.ids v id hlen hipo]
    refine pairwise_insertIdx (by rw [List.length_zip]; omega) hpw ?_ ?_
    · intro x hx
      obtain ⟨i, hzi, hik, hgx⟩ := mem_take_imp hx
      have hi : i < s.ids.length := by
        have := List.length_zip s.objs s.ids
        omega
      have hxeq : x = (s.objs.getD i default, s.ids.getD i "") := by
        rw [← hgx]
        simp only [List.get_eq_getElem, List.getElem_zip]
        rw [list_getD_eq_get s.objs default i (by omega), list_getD_eq_get s.ids "" i hi]
        simp [List.get_eq_getElem]
      rw [hxeq]
      rw [← hneg_iff]
      exact hlo i hik
    · intro x hx
      obtain ⟨i, hzi, hik, hgx⟩ := mem_drop_imp hx
      have hi : i < s.ids.length := by
        have := List.length_zip s.objs s.ids
        omega
      have hxeq : x = (s.objs.getD i default, s.ids.getD i "") := by
        rw [← hgx]
        simp only [List.get_eq_getElem, List.getElem_zip]
        rw [list_getD_eq_get s.objs default i (by omega), list_getD_eq_get s.ids "" i hi]
        simp [List.get_eq_getElem]
      rw [hxeq]
      rw [← hpos_iff]
      exact hhi i hik hi

theorem reinsertAll_lexS_perm [Inhabited T] (cb : T → T → Int) (hlaw : lawfulCmp cb)
    (srt : sposSort) :
    ∀ (ps : List (String × T)) (acc : Store T),
      acc.compareCB = some cb → acc.sorting = srt →
      acc.objs.length = acc.ids.length →
      (acc.objs.zip acc.ids).Pairwise (valIdLtS cb srt) →
      (∀ p ∈ ps, 0 < p.1.length) → (∀ p ∈ ps, p.1 ∉ acc.ids) →
      (ps.map Prod.fst).Nodup →
      (reinsertAll true acc ps).compareCB = some cb ∧
      (reinsertAll true acc ps).sorting = srt ∧
      (reinsertAll true acc ps).objs.length = (reinsertAll true acc ps).ids.length ∧
      ((reinsertAll true acc ps).objs.zip (reinsertAll true acc ps).ids).Pairwise
        (valIdLtS cb srt) ∧
      List.Perm ((reinsertAll true acc ps).ids.zip (reinsertAll true acc ps).objs)
        ((acc.ids.zip acc.objs) ++ ps)
  | [], acc, hcb, hsort, hlen, hpw, _, _, _ => by
    unfold reinsertAll
    exact ⟨hcb, hsort, hlen, hpw, by simp⟩
  | p :: rest, acc, hcb, hsort, hlen, hpw, hids, hfresh, hnd => by
    unfold reinsertAll
    rw [if_pos rfl]
    obtain ⟨ip, hiple, hids', hobjs', hcb', hsort', hpw'⟩ :=
      setObjWithId_lexS_spec cb hlaw srt acc p.1 p.2 hcb hsort hlen hpw
        (hids p (List.mem_cons_self _ _)) (hfresh p (List.mem_cons_self _ _))
    have hlen' : (setObjWithId acc p.1 p.2).2.objs.length =
        (setObjWithId acc p.1 p.2).2.ids.length := by
      rw [hids', hobjs', List.length_insertIdx _ _ hiple,
        List.length_insertIdx _ _ (by omega)]
      omega
    have hndc := List.nodup_cons.mp (show (p.1 :: rest.map Prod.fst).Nodup by
      rw [← List.map_cons]; exact hnd)
    have hfresh' : ∀ q ∈ rest, q.1 ∉ (setObjWithId acc p.1 p.2).2.ids := by
      intro q hq hqmem
      rw [hids'] at hqmem
      rcases (mem_insertIdx_iff hiple).mp hqmem with heq | hmem'
      · have hmm : q.1 ∈ rest.map Prod.fst := List.mem_map_of_mem _ hq
        rw [heq] at hmm
        exact hndc.1 hmm
      · exact hfresh q (List.mem_cons_of_mem _ hq) hmem'
    have hrec := reinsertAll_lexS_perm cb hlaw srt rest (setObjWithId acc p.1 p.2).2
      hcb' hsort' hlen' hpw' (fun q hq => hids q (List.mem_cons_of_mem _ hq)) hfresh' hndc.2
    refine ⟨hrec.1, hrec.2.1, hrec.2.2.1, hrec.2.2.2.1, ?_⟩
    refine hrec.2.2.2.2.trans ?_
    have hzip : (setObjWithId acc p.1 p.2).2.ids.zip (setObjWithId acc p.1 p.2).2.objs
        = (acc.ids.zip acc.objs).insertIdx ip p := by
      rw [hids', hobjs']
      exact zip_insertIdx ip acc.ids acc.objs p.1 p.2 hlen.symm hiple
    have hlz : ip ≤ (acc.ids.zip acc.objs).length := by
      rw [List.length_zip]
      omega
    have hperm1 : List.Perm ((setObjWithId acc p.1 p.2).2.ids.zip
        (setObjWithId acc p.1 p.2).2.objs) (p :: (acc.ids.zip acc.objs)) := by
      rw [hzip]
      exact insertIdx_perm _ ip p hlz
    have hstep := hperm1.append_right rest
    refine hstep.trans ?_
    rw [List.cons_append]
    exact List.perm_middle.symm

/-! ## Retrieval helpers and formatting lemmas -/

theorem getObjById_fast [Inhabited T] (s : Store T) (id : String)
    (h1 : -1 < s.index) (h2 : s.index < (s.ids.length : Int))
    (h3 : s.ids.getD s.index.toNat "" = id) :
    (getObjById s id).1 = s.objs.get? s.index.toNat := by
  have hcond : -1 < s.index ∧ s.index < (s.ids.length : Int) ∧
      s.ids.getD s.index.toNat "" = id := ⟨h1, h2, h3⟩
  unfold getObjById indexOf
  rw [if_pos hcond]
  dsimp only
  rw [if_pos h1]

theorem getObjById_none [Inhabited T] (s : Store T) (id : String)
    (hcb : s.compareCB = none)
    (hsrt : s.sorting ≠ sposSort.None → s.ids.Pairwise (idLt s.sorting))
    (hni : id ∉ s.ids) :
    (getObjById s id).1 = none := by
  have hspec := indexOf_plain_spec s id none hcb hsrt
  unfold getObjById
  by_cases hr : -1 < (indexOf s id none).1
  · exact absurd (hspec.1 (by omega)).1 hni
  · rw [if_neg hr]

theorem createId_val {T : Type} (s : Store T) (v : T) :
    (s.createIdCB = none → (createId s v).1 = stringifyU s.autoId) ∧
    (∀ f, s.createIdCB = some f → (createId s v).1 = f v) := by
  unfold createId
  cases hc : s.createIdCB <;> simp [hc]

theorem pairwise_ids_getD {srt : sposSort} {ids : List String}
    (hpw : ids.Pairwise (idLt srt)) :
    ∀ i j, i < j → j < ids.length → idLt srt (ids.getD i "") (ids.getD j "") := by
  intro i j hij hj
  have hi : i < ids.length := by omega
  have hg := (List.pairwise_iff_get).mp hpw ⟨i, hi⟩ ⟨j, hj⟩ hij
  rw [list_getD_eq_get ids "" i hi, list_getD_eq_get ids "" j hj]
  exact hg

theorem pairwise_zip_getD [Inhabited T] {cb : T → T → Int} {objs : List T} {ids : List String}
    (hlen : objs.length = ids.length) (hpw : (objs.zip ids).Pairwise (valIdLt cb)) :
    ∀ i j, i < j → j < ids.length →
      valIdLt cb (objs.getD i default, ids.getD i "") (objs.getD j default, ids.getD j "") := by
  intro i j hij hj
  have hi : i < ids.length := by omega
  have hzl : (objs.zip ids).length = ids.length := by
    rw [List.length_zip]
    omega
  have hg := (List.pairwise_iff_get).mp hpw ⟨i, by omega⟩ ⟨j, by omega⟩ hij
  have hgi : (objs.zip ids).get ⟨i, by omega⟩ = (objs.getD i default, ids.getD i "") := by
    simp only [List.get_eq_getElem, List.getElem_zip]
    rw [list_getD_eq_get objs default i (by omega), list_getD_eq_get ids "" i hi]
    simp [List.get_eq_getElem]
  have hgj : (objs.zip ids).get ⟨j, by omega⟩ = (objs.getD j default, ids.getD j "") := by
    simp only [List.get_eq_getElem, List.getElem_zip]
    rw [list_getD_eq_get objs default j (by omega), list_getD_eq_get ids "" j hj]
    simp [List.get_eq_getElem]
  rw [hgi, hgj] at hg
  exact hg

theorem toInt8_pos {n : Nat} (h1 : 0 < n) (h2 : n ≤ 127) : 0 < toInt8 n := by
  unfold toInt8
  have hm : n % 256 = n := Nat.mod_eq_of_lt (by omega)
  rw [hm, if_pos (by omega : n < 128)]
  omega

theorem makeIdFromArgs_pure {T : Type} (s : Store T) (args : List SpArg)
    (h1 : 0 < args.length) (h2 : args.length ≤ 127) :
    makeIdFromArgs s args = (makeIdFrom s args, s) := by
  unfold makeIdFromArgs
  rw [if_pos (toInt8_pos h1 h2)]

theorem padZeros_length (w : Nat) (str : String) :
    (padZeros w str).length = max str.length w := by
  unfold padZeros
  split
  · rw [String.length_append]
    show (List.replicate (w - str.length) '0').length + str.length = _
    rw [List.length_replicate]
    omega
  · omega

theorem stringifyU_length (v : Nat) : (stringifyU v).length = max (Nat.repr v).length 8 :=
  padZeros_length 8 (Nat.repr v)

theorem stringifyS_nat_length (d v : Nat) :
    (stringifyS d (v : Int)).length = min 99 (max (Nat.repr v).length d) := by
  unfold stringifyS
  rw [if_neg (by omega : ¬ ((v : Int) < 0)), Int.toNat_natCast]
  show ((padZeros d (Nat.repr v)).data.take 99).length = min 99 (max (Nat.repr v).length d)
  rw [List.length_take]
  have h : (padZeros d (Nat.repr v)).data.length = max (Nat.repr v).length d :=
    padZeros_length d (Nat.repr v)
  omega

/-! ## The claims -/

/-- C9: calling `setCapacityInc` with an increment `<= 1`, `setIdNumDigits` or
`setIdNumDecimals` with `0`, or `setIdSeparator` with an empty string is
silently ignored - the call returns normally and the prior configuration value
(indeed the whole store) is retained unchanged; with an increment `> 1`, a
positive width, or a non-empty separator the new value is stored. -/
theorem claim_C9 (T : Type) (s : Store T) (n : Nat) (sep : String) (d e : Nat) :
    ((setCapacityInc s n).capaInc = if 1 < n then n else s.capaInc) ∧
    (¬ 1 < n → setCapacityInc s n = s) ∧
    ((setIdSeparator s sep).idSep = if 0 < sep.length then sep else s.idSep) ∧
    (¬ 0 < sep.length → setIdSeparator s sep = s) ∧
    ((setIdNumDigits s d).idNumDigits = if 0 < d then d else s.idNumDigits) ∧
    (¬ 0 < d → setIdNumDigits s d = s) ∧
    ((setIdNumDecimals s e).idNumDecimals = if 0 < e then e else s.idNumDecimals) ∧
    (¬ 0 < e → setIdNumDecimals s e = s) := by
  unfold setCapacityInc setIdSeparator setIdNumDigits setIdNumDecimals
  refine ⟨?_, fun h => by rw [if_neg h], ?_, fun h => by rw [if_neg h],
    ?_, fun h => by rw [if_neg h], ?_, fun h => by rw [if_neg h]⟩
  · by_cases h : 1 < n <;> simp [h]
  · by_cases h : 0 < sep.length <;> simp [h]
  · by_cases h : 0 < d <;> simp [h]
  · by_cases h : 0 < e <;> simp [h]

/-- C9 witness: the guards evaluated at concrete configuration values. -/
theorem claim_C9_witness :
    (setCapacityInc (mkStore Nat sposSort.None) 1).capaInc = 10 ∧
    (setIdNumDigits (mkStore Nat sposSort.None) 5).idNumDigits = 5 := by
  have h := claim_C9 Nat (mkStore Nat sposSort.None) 1 "" 5 0
  constructor
  · rw [h.1]
    decide
  · rw [h.2.2.2.2.1]
    decide

/-- C3: after every sequence of public operations on a store built by any of
the constructors, the identifier sequence and the object sequence have equal
length and `getSize()` reports that common length. -/
theorem claim_C3 (T : Type) [Inhabited T] (ops : List (SpOp T)) :
    (∀ srt : sposSort,
      getSize (runOps (mkStore T srt) ops) = (runOps (mkStore T srt) ops).ids.length ∧
      (runOps (mkStore T srt) ops).objs.length = (runOps (mkStore T srt) ops).ids.length) ∧
    (∀ cb : T → T → Int,
      getSize (runOps (mkStoreCmp T cb) ops) = (runOps (mkStoreCmp T cb) ops).ids.length ∧
      (runOps (mkStoreCmp T cb) ops).objs.length =
        (runOps (mkStoreCmp T cb) ops).ids.length) :=
  ⟨fun srt => ⟨rfl, runOps_len ops (mkStore T srt) rfl⟩,
   fun cb => ⟨rfl, runOps_len ops (mkStoreCmp T cb) rfl⟩⟩

/-- C5 (amended): the `_added` flag is set by `addObjWithId`, `setObjWithId`
and a successful `addObjFromArgs`, and is `true` exactly when that call
appended a new slot; `getObjById`, `getObjFromArgs` and a failed
`addObjFromArgs` leave the flag (and for the failed insert, the sequences)
unchanged. -/
theorem claim_C5 (T : Type) [Inhabited T] (s : Store T) (id : String) (v : T) :
    ((addObjWithId s id v).2.added = true ↔
      (addObjWithId s id v).2.ids.length = s.ids.length + 1) ∧
    ((setObjWithId s id v).2.added = true ↔
      (setObjWithId s id v).2.ids.length = s.ids.length + 1) ∧
    ((addObjFromArgs s v).1.isSome = true →
      (addObjFromArgs s v).2.added = true ∧
      (addObjFromArgs s v).2.ids.length = s.ids.length + 1) ∧
    ((addObjFromArgs s v).1 = none →
      (addObjFromArgs s v).2.added = s.added ∧ (addObjFromArgs s v).2.ids = s.ids) ∧
    (getObjById s id).2.added = s.added ∧
    (getObjFromArgs s v).2.added = s.added :=
  ⟨addObjWithId_added_iff s id v, setObjWithId_added_iff s id v,
   (addObjFromArgs_added s v).1, (addObjFromArgs_added s v).2,
   getObjById_added s id, getObjFromArgs_added s v⟩

/-- C5 witness: a fresh insert sets the flag. -/
theorem claim_C5_witness : (addObjWithId (mkStore Nat sposSort.None) "a" 0).2.added = true := by
  rw [(claim_C5 Nat (mkStore Nat sposSort.None) "a" 0).1]
  decide

/-- C5 counterexample: the claim says a plain lookup reports `false` through
`isAdded()`, but `getObjById` never writes the flag - after an insert
followed by a plain lookup of the same id, `isAdded()` still reports `true`. -/
theorem claim_C5_cex :
    (addObjWithId (mkStore Nat sposSort.None) "a" 7).2.added = true ∧
    isAdded (getObjById (addObjWithId (mkStore Nat sposSort.None) "a" 7).2 "a").2 = true := by
  decide

set_option maxRecDepth 4000 in
/-- C8: with the default configuration (separator `"#/#"`, digit width 8),
`makeIdFromArgs(42, "x")` returns exactly `"00000042#/#x"`, and for argument
tuples of 1 to 127 arguments the function is a pure function of the store
configuration (it neither reads nor advances `_autoId`).  The third and
fourth conjuncts evaluate the failing input of the `int8_t` truncation bug:
with 128 arguments `sizeof...(args)` wraps to `-128`, so the call ignores its
arguments and returns consecutive auto-counter ids instead of the joined
string. -/
theorem claim_C8 :
    (makeIdFromArgs (mkStore Nat sposSort.None) [SpArg.intArg 42, SpArg.strArg "x"]).1 =
      "00000042#/#x" ∧
    (∀ (s : Store Nat) (args : List SpArg), 0 < args.length → args.length ≤ 127 →
      makeIdFromArgs s args = (makeIdFrom s args, s)) ∧
    (makeIdFromArgs (mkStore Nat sposSort.None)
      (List.replicate 128 (SpArg.strArg "x"))).1 = "00010000" ∧
    (makeIdFromArgs (makeIdFromArgs (mkStore Nat sposSort.None)
        (List.replicate 128 (SpArg.strArg "x"))).2
      (List.replicate 128 (SpArg.strArg "x"))).1 = "00010001" := by
  refine ⟨by decide, fun s args h1 h2 => makeIdFromArgs_pure s args h1 h2, by decide, by decide⟩

/-- C8 witness: the purity clause applied at a concrete two-argument tuple. -/
theorem claim_C8_witness :
    makeIdFromArgs (mkStore Nat sposSort.None) [SpArg.intArg 42, SpArg.strArg "x"] =
      (makeIdFrom (mkStore Nat sposSort.None) [SpArg.intArg 42, SpArg.strArg "x"],
       mkStore Nat sposSort.None) :=
  claim_C8.2.1 (mkStore Nat sposSort.None) [SpArg.intArg 42, SpArg.strArg "x"]
    (by decide) (by decide)

/-- C10 (amended): unsigned integers are always rendered with the constant
width 8 regardless of the configured `_idNumDigits`, signed integers with the
configured width `d` but capped at the 99 characters of the `snprintf`
buffer; with `L` the length of the decimal representation the rendered
lengths are `max L 8` and `min 99 (max L d)`, so for `d ≠ 8` the unsigned
and signed renderings of the same value have different lengths whenever
`L < max d 8` (for larger values both renderings have length `L`).  The
hypothesis `L < 99` delimits the machine domain: a `uint64_t`/`int64_t`
value renders in at most 20 digits. -/
theorem claim_C10 (T : Type) (s : Store T) (v : Nat)
    (hd : s.idNumDigits ≠ 8) (hlen : (Nat.repr v).length < max s.idNumDigits 8)
    (hbuf : (Nat.repr v).length < 99) :
    (makeIdFromArgs s [SpArg.uintArg v]).1 = stringifyU v ∧
    (makeIdFromArgs s [SpArg.uintArg v]).1.length = max (Nat.repr v).length 8 ∧
    (makeIdFromArgs s [SpArg.intArg (v : Int)]).1.length =
      min 99 (max (Nat.repr v).length s.idNumDigits) ∧
    (makeIdFromArgs s [SpArg.uintArg v]).1.length ≠
      (makeIdFromArgs s [SpArg.intArg (v : Int)]).1.length := by
  have hu : (makeIdFromArgs s [SpArg.uintArg v]).1 = stringifyU v := by
    rw [makeIdFromArgs_pure s _ (by simp) (by simp)]
    rfl
  have hs : (makeIdFromArgs s [SpArg.intArg (v : Int)]).1 =
      stringifyS s.idNumDigits (v : Int) := by
    rw [makeIdFromArgs_pure s _ (by simp) (by simp)]
    rfl
  refine ⟨hu, ?_, ?_, ?_⟩
  · rw [hu, stringifyU_length]
  · rw [hs, stringifyS_nat_length]
  · rw [hu, hs, stringifyU_length, stringifyS_nat_length]
    omega

/-- C10 witness: configured width 4, value 42 - lengths 8 and 4 differ. -/
theorem claim_C10_witness :
    (makeIdFromArgs (setIdNumDigits (mkStore Nat sposSort.None) 4)
      [SpArg.uintArg 42]).1.length ≠
    (makeIdFromArgs (setIdNumDigits (mkStore Nat sposSort.None) 4)
      [SpArg.intArg (42 : Int)]).1.length :=
  (claim_C10 Nat (setIdNumDigits (mkStore Nat sposSort.None) 4) 42 (by decide)
    (by decide) (by decide)).2.2.2

/-- C10 counterexample: the claim as stated asserts different lengths for
every configured width `d ≠ 8`; with `d = 2` and the value `12345678`
(8 decimal digits) both renderings are exactly 8 characters long. -/
theorem claim_C10_cex :
    (setIdNumDigits (mkStore Nat sposSort.None) 2).idNumDigits = 2 ∧
    (makeIdFromArgs (setIdNumDigits (mkStore Nat sposSort.None) 2)
      [SpArg.uintArg 12345678]).1.length =
    (makeIdFromArgs (setIdNumDigits (mkStore Nat sposSort.None) 2)
      [SpArg.intArg (12345678 : Int)]).1.length := by
  decide

theorem isPlainOp_of_isInsertOp {T : Type} (op : SpOp T) (h : isInsertOp op = true) :
    isPlainOp op = true := by
  cases op <;> simp_all [isPlainOp, isInsertOp]

/-- C1 (amended): in every configuration without a value compare callback
(sorting `None`, `ASC` or `DESC`), after any sequence of the three insert
operations the stored identifiers are pairwise distinct, and inserting an
identifier that is already present overwrites the stored object in place -
the identifier sequence is unchanged and the entry now holds the new object -
rather than creating a second entry. -/
theorem claim_C1 (T : Type) [Inhabited T] (srt : sposSort) (ops : List (SpOp T))
    (hins : ∀ op ∈ ops, isInsertOp op = true) (id : String) (v : T) :
    (runOps (mkStore T srt) ops).ids.Nodup ∧
    (id ∈ (runOps (mkStore T srt) ops).ids →
      (addObjWithId (runOps (mkStore T srt) ops) id v).2.ids =
        (runOps (mkStore T srt) ops).ids ∧
      (getObjById (addObjWithId (runOps (mkStore T srt) ops) id v).2 id).1 = some v) ∧
    (id ∈ (runOps (mkStore T srt) ops).ids →
      (setObjWithId (runOps (mkStore T srt) ops) id v).2.ids =
        (runOps (mkStore T srt) ops).ids ∧
      (getObjById (setObjWithId (runOps (mkStore T srt) ops) id v).2 id).1 = some v) := by
  have hwf := runOps_plain_wfp ops (mkStore T srt) (mkStore_wfp T srt)
    (fun op ho => isPlainOp_of_isInsertOp op (hins op ho))
  refine ⟨hwf.nodup, ?_, ?_⟩
  · intro hmem
    rw [addObjWithId_eq_setObjWithId hwf.cb_none]
    have hs := setObjWithId_plain_spec (runOps (mkStore T srt) ops) id v hwf.cb_none
      hwf.sorted hwf.nodup hwf.len_eq
    rcases hs.2.2.2.2.2.2.2.2 with ⟨_, hids, _, _⟩ | ⟨hni, _⟩
    · have hge := hs.2.2.2.2.1
      have hlt := hs.2.2.2.2.2.1
      refine ⟨hids, ?_⟩
      rw [getObjById_fast _ id (by omega) (by omega) hs.2.2.2.2.2.2.1]
      exact hs.2.2.2.2.2.2.2.1
    · exact absurd hmem hni
  · intro hmem
    have hs := setObjWithId_plain_spec (runOps (mkStore T srt) ops) id v hwf.cb_none
      hwf.sorted hwf.nodup hwf.len_eq
    rcases hs.2.2.2.2.2.2.2.2 with ⟨_, hids, _, _⟩ | ⟨hni, _⟩
    · have hge := hs.2.2.2.2.1
      have hlt := hs.2.2.2.2.2.1
      refine ⟨hids, ?_⟩
      rw [getObjById_fast _ id (by omega) (by omega) hs.2.2.2.2.2.2.1]
      exact hs.2.2.2.2.2.2.2.1
    · exact absurd hmem hni

/-- C1 witness: two inserts under `ASC`, then an overwrite of `"a"`. -/
theorem claim_C1_witness :
    (runOps (mkStore Nat sposSort.ASC) [SpOp.addW "b" 1, SpOp.addW "a" 2]).ids.Nodup ∧
    (addObjWithId (runOps (mkStore Nat sposSort.ASC) [SpOp.addW "b" 1, SpOp.addW "a" 2])
      "a" 7).2.ids =
      (runOps (mkStore Nat sposSort.ASC) [SpOp.addW "b" 1, SpOp.addW "a" 2]).ids := by
  have h := claim_C1 Nat sposSort.ASC [SpOp.addW "b" 1, SpOp.addW "a" 2] (by decide) "a" 7
  exact ⟨h.1, (h.2.1 (by decide)).1⟩

/-- C1 counterexample: with a value compare callback installed, the claim
fails - `setObjWithId` keeps the vectors ordered by object value, but
`addObjWithId` probes by identifier with the id-based comparison, misses the
existing entry `"c"`, and appends a second entry with the same identifier. -/
theorem claim_C1_cex :
    (runOps (mkStoreCmp Nat natCmp)
      [SpOp.setW "c" 1, SpOp.setW "a" 2, SpOp.setW "b" 3, SpOp.addW "c" 0]).ids =
      ["c", "a", "b", "c"] ∧
    ¬ (runOps (mkStoreCmp Nat natCmp)
      [SpOp.setW "c" 1, SpOp.setW "a" 2, SpOp.setW "b" 3, SpOp.addW "c" 0]).ids.Nodup := by
  decide

/-- C4 (amended): on every store reachable without installing a value compare
callback, an insert of `v` under `id` immediately followed by `getObjById id`
returns the freshly stored object `v`; `deleteObjById id` returns `true`
exactly when an entry with identifier `id` is present; and a delete followed
by `getObjById id` returns the not-found result. -/
theorem claim_C4 (T : Type) [Inhabited T] (srt : sposSort) (ops : List (SpOp T))
    (hplain : ∀ op ∈ ops, isPlainOp op = true) (id : String) (v : T) :
    (getObjById (setObjWithId (runOps (mkStore T srt) ops) id v).2 id).1 = some v ∧
    (getObjById (addObjWithId (runOps (mkStore T srt) ops) id v).2 id).1 = some v ∧
    ((deleteObjById (runOps (mkStore T srt) ops) id).1 = true ↔
      id ∈ (runOps (mkStore T srt) ops).ids) ∧
    (getObjById (deleteObjById (runOps (mkStore T srt) ops) id).2 id).1 = none := by
  have hwf := runOps_plain_wfp ops (mkStore T srt) (mkStore_wfp T srt) hplain
  have hs := setObjWithId_plain_spec (runOps (mkStore T srt) ops) id v hwf.cb_none
    hwf.sorted hwf.nodup hwf.len_eq
  have hd := deleteObjById_plain_spec (runOps (mkStore T srt) ops) id hwf.cb_none
    hwf.sorted hwf.nodup hwf.len_eq
  have hget : (getObjById (setObjWithId (runOps (mkStore T srt) ops) id v).2 id).1 = some v := by
    have hge := hs.2.2.2.2.1
    have hlt := hs.2.2.2.2.2.1
    rw [getObjById_fast _ id (by omega) (by omega) hs.2.2.2.2.2.2.1]
    exact hs.2.2.2.2.2.2.2.1
  refine ⟨hget, ?_, hd.1, ?_⟩
  · rw [addObjWithId_eq_setObjWithId hwf.cb_none]
    exact hget
  · exact getObjById_none _ id hd.2.1.1 (by
      have hsort := hd.2.1.2.1
      intro hne
      have := hd.2.2.2.2.1
      rw [hsort] at hne ⊢
      exact (by rw [← hsort] at hne ⊢; exact hd.2.2.2.2.1 hne)) hd.2.2.2.2.2.1

/-- C4 witness: insert/lookup/delete round trip on a concrete `ASC` store. -/
theorem claim_C4_witness :
    (getObjById (setObjWithId (runOps (mkStore Nat sposSort.ASC)
      [SpOp.addW "b" 1]) "a" 2).2 "a").1 = some 2 ∧
    ((deleteObjById (runOps (mkStore Nat sposSort.ASC) [SpOp.addW "b" 1]) "b").1 = true) := by
  have h := claim_C4 Nat sposSort.ASC [SpOp.addW "b" 1] (by decide) "a" 2
  have h' := claim_C4 Nat sposSort.ASC [SpOp.addW "b" 1] (by decide) "b" 2
  exact ⟨h.1, h'.2.2.1.mpr (by decide)⟩

/-- C4 counterexample: with a value compare callback, `deleteObjById` probes
by identifier on vectors ordered by object value; for the store holding
`("c",1), ("a",2), ("b",3)` in value order it misses `"c"` and returns
`false` although an entry with identifier `"c"` is present. -/
theorem claim_C4_cex :
    (deleteObjById (runOps (mkStoreCmp Nat natCmp)
      [SpOp.setW "c" 1, SpOp.setW "a" 2, SpOp.setW "b" 3]) "c").1 = false ∧
    "c" ∈ (runOps (mkStoreCmp Nat natCmp)
      [SpOp.setW "c" 1, SpOp.setW "a" 2, SpOp.setW "b" 3]).ids := by
  decide

/-- C6 (amended): on every store reachable without installing a value compare
callback, `addObjFromArgs` synthesises the identifier of the constructed
object through the create-id callback when one is set and through the
auto-incrementing counter otherwise; when the synthesised identifier matches
no stored identifier it inserts the new pair and returns a pointer, and when
it collides with a stored identifier it inserts nothing, leaves both
sequences unchanged, and returns the null pointer. -/
theorem claim_C6 (T : Type) [Inhabited T] (srt : sposSort) (ops : List (SpOp T))
    (hplain : ∀ op ∈ ops, isPlainOp op = true) (v : T) :
    ((runOps (mkStore T srt) ops).createIdCB = none →
      (createId (runOps (mkStore T srt) ops) v).1 =
        stringifyU (runOps (mkStore T srt) ops).autoId) ∧
    (∀ f, (runOps (mkStore T srt) ops).createIdCB = some f →
      (createId (runOps (mkStore T srt) ops) v).1 = f v) ∧
    ((createId (runOps (mkStore T srt) ops) v).1 ∉ (runOps (mkStore T srt) ops).ids →
      (addObjFromArgs (runOps (mkStore T srt) ops) v).1.isSome = true ∧
      ∃ ip : Nat, ip ≤ (runOps (mkStore T srt) ops).ids.length ∧
        (addObjFromArgs (runOps (mkStore T srt) ops) v).2.ids =
          (runOps (mkStore T srt) ops).ids.insertIdx ip
            (createId (runOps (mkStore T srt) ops) v).1 ∧
        (addObjFromArgs (runOps (mkStore T srt) ops) v).2.objs =
          (runOps (mkStore T srt) ops).objs.insertIdx ip v) ∧
    ((createId (runOps (mkStore T srt) ops) v).1 ∈ (runOps (mkStore T srt) ops).ids →
      (addObjFromArgs (runOps (mkStore T srt) ops) v).1 = none ∧
      (addObjFromArgs (runOps (mkStore T srt) ops) v).2.ids =
        (runOps (mkStore T srt) ops).ids ∧
      (addObjFromArgs (runOps (mkStore T srt) ops) v).2.objs =
        (runOps (mkStore T srt) ops).objs) := by
  have hwf := runOps_plain_wfp ops (mkStore T srt) (mkStore_wfp T srt) hplain
  have ha := addObjFromArgs_plain_spec (runOps (mkStore T srt) ops) v hwf.cb_none
    hwf.sorted hwf.nodup hwf.len_eq
  have hcv := createId_val (runOps (mkStore T srt) ops) v
  refine ⟨hcv.1, hcv.2, ?_, ?_⟩
  · intro hni
    obtain ⟨hsome, ip, hip, hids, hobjs, _⟩ := ha.1 hni
    exact ⟨hsome, ip, hip, hids, hobjs⟩
  · intro hmem
    obtain ⟨hnone, hids, hobjs, _⟩ := ha.2.1 hmem
    exact ⟨hnone, hids, hobjs⟩

/-- C6 witness: a fresh auto-generated id is inserted, and a colliding id
(forced by `addObjWithId "00010000"`) makes `addObjFromArgs` return null. -/
theorem claim_C6_witness :
    (addObjFromArgs (runOps (mkStore Nat sposSort.ASC) [SpOp.addW "q" 1]) 5).1.isSome
      = true ∧
    (addObjFromArgs (runOps (mkStore Nat sposSort.ASC)
      [SpOp.addW "00010000" 1]) 5).1 = none := by
  have h := claim_C6 Nat sposSort.ASC [SpOp.addW "q" 1] (by decide) 5
  have h' := claim_C6 Nat sposSort.ASC [SpOp.addW "00010000" 1] (by decide) 5
  exact ⟨(h.2.2.1 (by decide)).1, (h'.2.2.2 (by decide)).1⟩

/-- C6 counterexample: with a value compare callback and a create-id callback
returning the already-present identifier `"x"`, the claim fails - the probe
compares object values, misses the stored `("x", 5)`, inserts a second entry
with identifier `"x"`, and returns a non-null pointer. -/
theorem claim_C6_cex :
    (addObjFromArgs (runOps
        (setCreateIdCallback (mkStoreCmp Nat natCmp) (fun _ => "x"))
        [SpOp.setW "x" 5, SpOp.setW "y" 9]) 3).1.isSome = true ∧
    (addObjFromArgs (runOps
        (setCreateIdCallback (mkStoreCmp Nat natCmp) (fun _ => "x"))
        [SpOp.setW "x" 5, SpOp.setW "y" 9]) 3).2.ids = ["x", "x", "y"] := by
  decide

/-- C7 (amended): reconfiguring a store reachable by comparator-free
operations triggers a full recreate.  For the ordering mode, `setSorting`
leaves the stored (id, object) pairs the same up to permutation, installs the
new mode, and when the new mode is not `None` re-establishes the id ordering;
in particular an `ASC` store built from ids `"b"`, `"a"` iterates `"a"`,
`"b"`, and after `setSorting DESC` it iterates `"b"`, `"a"`.  For the value
comparator, `setCompareCallback` always installs the callback and recreates
with preserved ids; provided the callback is a consistent three-way
comparison and every stored id is non-empty, the pair multiset is preserved
and the store ends ordered by the callback with the direction-adjusted id
comparison breaking ties.  The non-empty proviso is forced: the re-insertion
probe skips the id tie-break for an empty id, so a pair with the empty id
and a value tied with another entry is silently dropped (see the
counterexample). -/
theorem claim_C7 (T : Type) [Inhabited T] (srt srt' : sposSort) (ops : List (SpOp T))
    (hplain : ∀ op ∈ ops, isPlainOp op = true) :
    ((runOps (mkStore Nat sposSort.ASC) [SpOp.addW "b" 0, SpOp.addW "a" 1]).ids =
      ["a", "b"] ∧
     forEach (setSorting (runOps (mkStore Nat sposSort.ASC)
       [SpOp.addW "b" 0, SpOp.addW "a" 1]) sposSort.DESC) (fun _ _ => true) =
       [("b", 0), ("a", 1)]) ∧
    (setSorting (runOps (mkStore T srt) ops) srt').sorting = srt' ∧
    List.Perm
      ((setSorting (runOps (mkStore T srt) ops) srt').ids.zip
        (setSorting (runOps (mkStore T srt) ops) srt').objs)
      ((runOps (mkStore T srt) ops).ids.zip (runOps (mkStore T srt) ops).objs) ∧
    (srt' ≠ sposSort.None →
      (setSorting (runOps (mkStore T srt) ops) srt').ids.Pairwise (idLt srt')) ∧
    (∀ cb : T → T → Int, lawfulCmp cb →
      (∀ id ∈ (runOps (mkStore T srt) ops).ids, 0 < id.length) →
      (setCompareCallback (runOps (mkStore T srt) ops) cb).compareCB = some cb ∧
      List.Perm
        ((setCompareCallback (runOps (mkStore T srt) ops) cb).ids.zip
          (setCompareCallback (runOps (mkStore T srt) ops) cb).objs)
        ((runOps (mkStore T srt) ops).ids.zip (runOps (mkStore T srt) ops).objs) ∧
      ((setCompareCallback (runOps (mkStore T srt) ops) cb).objs.zip
        (setCompareCallback (runOps (mkStore T srt) ops) cb).ids).Pairwise
          (valIdLtS cb (runOps (mkStore T srt) ops).sorting)) := by
  have hwf := runOps_plain_wfp ops (mkStore T srt) (mkStore_wfp T srt) hplain
  have hsp := setSorting_plain_spec (runOps (mkStore T srt) ops) srt' hwf
  refine ⟨by decide, hsp.1, hsp.2.2, ?_, ?_⟩
  · intro hne
    have hx := hsp.2.1.sorted
    rw [hsp.1] at hx
    exact hx hne
  · intro cb hlaw hne
    unfold setCompareCallback recreate
    dsimp only
    by_cases hz : (runOps (mkStore T srt) ops).ids.length = 0
    · rw [if_pos hz]
      have hids0 : (runOps (mkStore T srt) ops).ids = [] := List.length_eq_zero.mp hz
      refine ⟨rfl, ?_, ?_⟩
      · exact List.Perm.refl _
      · rw [hids0]
        simp
    · rw [if_neg hz]
      have hrein := reinsertAll_lexS_perm cb hlaw (runOps (mkStore T srt) ops).sorting
        ((runOps (mkStore T srt) ops).ids.zip (runOps (mkStore T srt) ops).objs)
        (reset { runOps (mkStore T srt) ops with compareCB := some cb })
        rfl rfl rfl List.Pairwise.nil
        (fun p hp => hne p.1 (List.of_mem_zip hp).1)
        (fun p _ hm => absurd hm (List.not_mem_nil _))
        (by rw [List.map_fst_zip _ _ (le_of_eq hwf.len_eq.symm)]; exact hwf.nodup)
      refine ⟨hrein.1, ?_, hrein.2.2.2.1⟩
      have hperm := hrein.2.2.2.2
      simpa using hperm

/-- C7 witness: the general clauses evaluated at a two-entry `ASC` store,
re-sorted to `DESC` and separately given the lawful comparator `natCmp`. -/
theorem claim_C7_witness :
    (setSorting (runOps (mkStore Nat sposSort.ASC)
      [SpOp.addW "b" 0, SpOp.addW "a" 1]) sposSort.DESC).sorting = sposSort.DESC ∧
    (setSorting (runOps (mkStore Nat sposSort.ASC)
      [SpOp.addW "b" 0, SpOp.addW "a" 1]) sposSort.DESC).ids.Pairwise
        (idLt sposSort.DESC) ∧
    (setCompareCallback (runOps (mkStore Nat sposSort.ASC)
      [SpOp.addW "b" 0, SpOp.addW "a" 1]) natCmp).compareCB = some natCmp ∧
    ((setCompareCallback (runOps (mkStore Nat sposSort.ASC)
      [SpOp.addW "b" 0, SpOp.addW "a" 1]) natCmp).objs.zip
      (setCompareCallback (runOps (mkStore Nat sposSort.ASC)
        [SpOp.addW "b" 0, SpOp.addW "a" 1]) natCmp).ids).Pairwise
        (valIdLtS natCmp
          (runOps (mkStore Nat sposSort.ASC) [SpOp.addW "b" 0, SpOp.addW "a" 1]).sorting) := by
  have h := claim_C7 Nat sposSort.ASC sposSort.DESC [SpOp.addW "b" 0, SpOp.addW "a" 1]
    (by decide)
  have hc := h.2.2.2.2 natCmp natCmp_lawful (by decide)
  exact ⟨h.2.1, h.2.2.2.1 (by decide), hc.1, hc.2.2⟩

/-- C7 counterexample: the comparator half of the claim fails without the
non-empty-id proviso even for a consistent comparator.  On the plain store
holding `("a", 5)` and `("", 5)`, `setCompareCallback natCmp` recreates by
re-inserting both pairs: the probe for the empty id finds the value-equal
entry `("a", 5)` because the id tie-break is skipped for an empty id, takes
the overwrite branch, and drops the pair `("", 5)` - the recreate does not
preserve the stored pairs, contradicting the unconditional claim. -/
theorem claim_C7_cex :
    lawfulCmp natCmp ∧
    (runOps (mkStore Nat sposSort.None) [SpOp.setW "a" 5, SpOp.setW "" 5]).ids =
      ["a", ""] ∧
    (setCompareCallback (runOps (mkStore Nat sposSort.None)
      [SpOp.setW "a" 5, SpOp.setW "" 5]) natCmp).ids = ["a"] :=
  ⟨natCmp_lawful, by decide, by decide⟩

theorem compareIds_ASC (a b : String) : compareIds sposSort.ASC a b = strcmp a b := by
  unfold compareIds
  simp

theorem compareIds_DESC (a b : String) : compareIds sposSort.DESC a b = -strcmp a b := by
  unfold compareIds
  simp

/-- C2 (amended): (a) with sorting `None` and no comparator, the identifier
sequence is exactly the insertion-order sequence of first occurrences, and
`forEach` visits the stored pairs in storage order (ids `"a"`, `"c"`, `"b"`
iterate in that order); (b) after any sequence of comparator-free operations,
if the store's sorting is `ASC` the identifiers are lexicographically
non-decreasing at every pair of positions, and `DESC` reverses this; (c) when
a lawful value comparator is installed and entries with distinct non-empty
identifiers are inserted through `setObjWithId`, the objects are
non-decreasing under the comparator with identifier tie-break. -/
theorem claim_C2 (T : Type) [Inhabited T] :
    (∀ ops : List (SpOp T), (∀ op ∈ ops, isInsertOp op = true) →
      (runOps (mkStore T sposSort.None) ops).ids = specInsIds [] 10000 ops) ∧
    (∀ s : Store T, forEach s (fun _ _ => true) = s.ids.zip s.objs) ∧
    (runOps (mkStore Nat sposSort.None)
      [SpOp.addW "a" 1, SpOp.addW "c" 2, SpOp.addW "b" 3]).ids = ["a", "c", "b"] ∧
    (∀ (srt : sposSort) (ops : List (SpOp T)), (∀ op ∈ ops, isPlainOp op = true) →
      ∀ i j, i < j → j < (runOps (mkStore T srt) ops).ids.length →
        ((runOps (mkStore T srt) ops).sorting = sposSort.ASC →
          strcmp ((runOps (mkStore T srt) ops).ids.getD i "")
            ((runOps (mkStore T srt) ops).ids.getD j "") ≤ 0) ∧
        ((runOps (mkStore T srt) ops).sorting = sposSort.DESC →
          0 ≤ strcmp ((runOps (mkStore T srt) ops).ids.getD i "")
            ((runOps (mkStore T srt) ops).ids.getD j ""))) ∧
    (∀ cb : T → T → Int, lawfulCmp cb →
      ∀ ps : List (String × T), (∀ p ∈ ps, 0 < p.1.length) → (ps.map Prod.fst).Nodup →
        ∀ i j, i < j →
          j < (ps.foldl (fun acc p => (setObjWithId acc p.1 p.2).2)
            (mkStoreCmp T cb)).ids.length →
          cb ((ps.foldl (fun acc p => (setObjWithId acc p.1 p.2).2)
              (mkStoreCmp T cb)).objs.getD i default)
            ((ps.foldl (fun acc p => (setObjWithId acc p.1 p.2).2)
              (mkStoreCmp T cb)).objs.getD j default) ≤ 0 ∧
          (cb ((ps.foldl (fun acc p => (setObjWithId acc p.1 p.2).2)
              (mkStoreCmp T cb)).objs.getD i default)
            ((ps.foldl (fun acc p => (setObjWithId acc p.1 p.2).2)
              (mkStoreCmp T cb)).objs.getD j default) = 0 →
            strcmp ((ps.foldl (fun acc p => (setObjWithId acc p.1 p.2).2)
                (mkStoreCmp T cb)).ids.getD i "")
              ((ps.foldl (fun acc p => (setObjWithId acc p.1 p.2).2)
                (mkStoreCmp T cb)).ids.getD j "") ≤ 0)) := by
  refine ⟨?_, ?_, by decide, ?_, ?_⟩
  · intro ops hins
    exact runOps_ins_unsorted ops (mkStore T sposSort.None) rfl rfl rfl hins
  · intro s
    exact forEachVisited_all s.ids s.objs
  · intro srt ops hplain i j hij hj
    have hwf := runOps_plain_wfp ops (mkStore T srt) (mkStore_wfp T srt) hplain
    constructor
    · intro hA
      have hpw := hwf.sorted (by rw [hA]; intro hc; cases hc)
      have := pairwise_ids_getD hpw i j hij hj
      unfold idLt at this
      rw [hA, compareIds_ASC] at this
      omega
    · intro hD
      have hpw := hwf.sorted (by rw [hD]; intro hc; cases hc)
      have := pairwise_ids_getD hpw i j hij hj
      unfold idLt at this
      rw [hD, compareIds_DESC] at this
      omega
  · intro cb hlaw ps hid hnd i j hij hj
    have hfold := setW_lex_fold cb hlaw ps (mkStoreCmp T cb) rfl rfl rfl
      List.Pairwise.nil hid (by intro p _ hmem; exact absurd hmem (List.not_mem_nil _))
      hnd
    have := pairwise_zip_getD hfold.1 hfold.2 i j hij hj
    unfold valIdLt at this
    dsimp only at this
    rcases this with h | ⟨hz, hs⟩
    · exact ⟨by omega, fun hzz => by omega⟩
    · exact ⟨by omega, fun _ => by omega⟩

/-- C2 witness: the clauses evaluated on concrete stores - insertion order on
an unordered store, the `ASC` ordering, and a comparator-sorted store built
from the subtraction comparator on integers. -/
theorem claim_C2_witness :
    (runOps (mkStore Int sposSort.None)
      [SpOp.addW "a" 1, SpOp.addW "c" 2, SpOp.addW "b" 3]).ids =
      specInsIds [] 10000 [SpOp.addW "a" 1, SpOp.addW "c" 2, SpOp.addW "b" 3] ∧
    strcmp ((runOps (mkStore Int sposSort.ASC)
        [SpOp.addW "c" 1, SpOp.addW "a" 2, SpOp.addW "b" 3]).ids.getD 0 "")
      ((runOps (mkStore Int sposSort.ASC)
        [SpOp.addW "c" 1, SpOp.addW "a" 2, SpOp.addW "b" 3]).ids.getD 1 "") ≤ 0 ∧
    (fun cb => cb (([(("b", (1 : Int))), ("a", 2)].foldl
        (fun acc p => (setObjWithId acc p.1 p.2).2) (mkStoreCmp Int cb)).objs.getD 0 0)
      (([(("b", (1 : Int))), ("a", 2)].foldl
        (fun acc p => (setObjWithId acc p.1 p.2).2) (mkStoreCmp Int cb)).objs.getD 1 0) ≤ 0)
      (fun a b => a - b) := by
  have h := claim_C2 Int
  refine ⟨h.1 _ (by decide), (h.2.2.2.1 sposSort.ASC
    [SpOp.addW "c" 1, SpOp.addW "a" 2, SpOp.addW "b" 3] (by decide) 0 1
    (by decide) (by decide)).1 (by decide), ?_⟩
  have hlaw : lawfulCmp (fun a b : Int => a - b) := by
    refine ⟨?_, ?_, ?_⟩
    · intro a b
      dsimp only
      omega
    · intro a b c h1 h2
      dsimp only at h1 h2 ⊢
      omega
    · intro a b c hz
      dsimp only at hz ⊢
      omega
  exact (h.2.2.2.2 (fun a b => a - b) hlaw [("b", 1), ("a", 2)]
    (by decide) (by decide) 0 1 (by decide) (by decide)).1

/-- C2 counterexample: part (c) of the claim as stated fails - on a
comparator store holding `("b",1), ("a",2)` in value order, the mutating call
`addObjWithId "c" 0` probes by identifier, appends `("c",0)` at the end, and
leaves the object sequence `[1, 2, 0]`, which is not non-decreasing under the
comparator. -/
theorem claim_C2_cex :
    (runOps (mkStoreCmp Nat natCmp)
      [SpOp.setW "a" 2, SpOp.setW "b" 1, SpOp.addW "c" 0]).objs = [1, 2, 0] ∧
    0 < natCmp ((runOps (mkStoreCmp Nat natCmp)
        [SpOp.setW "a" 2, SpOp.setW "b" 1, SpOp.addW "c" 0]).objs.getD 1 0)
      ((runOps (mkStoreCmp Nat natCmp)
        [SpOp.setW "a" 2, SpOp.setW "b" 1, SpOp.addW "c" 0]).objs.getD 2 0) := by
  decide
